import Mathlib

/-!
# Terrain selection overlay (`apps/opencs/view/render/terrainselection.cpp`)

A shallow embedding of `CSVRender::TerrainSelection`.

* A lattice position `std::pair<int, int>` is a pair of integers.  C++ `int`
  arithmetic is embedded in `Int`: signed overflow is undefined behaviour in
  the source, so no wrap-around is modelled.
* `std::vector<std::pair<int, int>>` is a `List`; `std::find(..) == end()` is
  non-membership, `erase(iter)` on the iterator returned by `std::find` is
  `List.erase` (first occurrence), `emplace_back`/`push_back` append at the end.
* The object state that the selection protocol reads and writes is
  `mSelection`, `mTemporarySelection` and `mDraggedOperationFlag`.  `update()`
  only rebuilds `mGeometry` from `mSelection`; the vertex array it fills is
  embedded as a pure function of the selection (`update`, `drawShapeSelection`,
  `drawTextureSelection`).
-/

namespace CSVRender

/-- A lattice position, `std::pair<int, int>`. -/
abbrev Pos := Int × Int

/-- The data members of `TerrainSelection` that the selection protocol uses. -/
structure TerrainSelection where
  mSelection : List Pos
  mTemporarySelection : List Pos
  mDraggedOperationFlag : Bool
deriving DecidableEq, Repr

namespace TerrainSelection

/-- State built by the constructor: both vectors empty, flag `false`. -/
def init : TerrainSelection :=
  { mSelection := [], mTemporarySelection := [], mDraggedOperationFlag := false }

/-- Source `getTerrainSelection()`: returns a copy of `mSelection`. -/
def getTerrainSelection (s : TerrainSelection) : List Pos :=
  s.mSelection

/-- Source `onlySelect(localPositions)`: `mSelection = localPositions`. -/
def onlySelect (s : TerrainSelection) (localPositions : List Pos) : TerrainSelection :=
  { s with mSelection := localPositions }

/-- Source `addSelect(localPos)`: append `localPos` when `std::find` does not find it. -/
def addSelect (s : TerrainSelection) (localPos : Pos) : TerrainSelection :=
  if localPos ∈ s.mSelection then s
  else { s with mSelection := s.mSelection ++ [localPos] }

/-- The find / erase / emplace_back block shared by both loops of `toggleSelect`:
erase the first occurrence of `localPos` when it is found, append it otherwise. -/
def flipSelect (sel : List Pos) (localPos : Pos) : List Pos :=
  if localPos ∈ sel then sel.erase localPos else sel ++ [localPos]

/-- One iteration of the loop of `toggleSelect` taken when `toggleInProgress`
is `true` (source lines 58-77). -/
def dragStep (s : TerrainSelection) (localPos : Pos) : TerrainSelection :=
  { mSelection :=
      if localPos ∈ s.mTemporarySelection then s.mSelection
      else flipSelect s.mSelection localPos
    mTemporarySelection := s.mTemporarySelection ++ [localPos]
    mDraggedOperationFlag := true }

/-- Source `toggleSelect(localPositions, toggleInProgress)`. -/
def toggleSelect (s : TerrainSelection) (localPositions : List Pos)
    (toggleInProgress : Bool) : TerrainSelection :=
  if toggleInProgress then
    localPositions.foldl dragStep s
  else if s.mDraggedOperationFlag = false then
    { s with mSelection := localPositions.foldl flipSelect s.mSelection }
  else
    { s with mDraggedOperationFlag := false, mTemporarySelection := [] }

/-- A call of one of the three public mutators of the selection. -/
inductive Mutation where
  | only (localPositions : List Pos)
  | add (localPos : Pos)
  | toggle (localPositions : List Pos) (toggleInProgress : Bool)
deriving DecidableEq, Repr

/-- Effect of one mutator call on the state. -/
def Mutation.run (s : TerrainSelection) : Mutation → TerrainSelection
  | .only localPositions => s.onlySelect localPositions
  | .add localPos => s.addSelect localPos
  | .toggle localPositions toggleInProgress => s.toggleSelect localPositions toggleInProgress

end TerrainSelection

/-! ### Numbers

C++ `float` values are embedded as the rationals they denote.  Every
conversion or operation that produces a `float` rounds its exact result with
`toFloat` (binary32: 24-bit significand, round to nearest, ties to even).
Infinities, NaN, exponent overflow and subnormals are outside the embedding. -/

/-- Nearest integer to `q`, ties going to the even neighbour. -/
def roundTiesEven (q : ℚ) : Int :=
  let f : Int := ⌊q⌋
  if q - f < 1 / 2 then f
  else if 1 / 2 < q - f then f + 1
  else if f % 2 = 0 then f
  else f + 1

/-- The binary32 value nearest to `q`: `q` is scaled by the unit in the last
place of its binade `[2^e, 2^(e+1))`, with `e = Int.log 2 |q|`, and rounded. -/
def toFloat (q : ℚ) : ℚ :=
  if q = 0 then 0
  else
    let ulp : ℚ := 2 ^ (Int.log 2 |q| - 23)
    roundTiesEven (q / ulp) * ulp

/-- Conversion `float → int` of C++: the fractional part is discarded
(truncation toward zero). -/
def truncToInt (q : ℚ) : Int :=
  if 0 ≤ q then ⌊q⌋ else ⌈q⌉

/-! ### Collaborators declared outside `terrainselection.cpp`

`ESM::Land`, `CSVRender::Cell`, `WorldspaceWidget::getCell` and
`CSMWorld::CellCoordinates` are only used, not defined, by the file; they are
parameters of the embedding. -/

/-- The constants of `ESM::Land` that the file reads (all of C++ type `int`). -/
structure Land where
  REAL_SIZE : Int
  LAND_SIZE : Int
  LAND_TEXTURE_SIZE : Int

/-- A `CSVRender::Cell`: the one member function the file calls on it, which
returns a `float`. -/
structure Cell where
  getSumOfAlteredAndTrueHeight : Int → Int → Int → Int → ℚ

/-- What a `TerrainSelection` reads from its surroundings.
`getCell cellX cellY` is the result of
`dynamic_cast<CSVRender::Cell*>(mWorldspaceWidget->getCell(coords))`, `none`
for a null pointer; the two coordinate maps are the static functions of
`CSMWorld::CellCoordinates`, which return `float`. -/
structure World where
  land : Land
  getCell : Int → Int → Option Cell
  vertexGlobalToWorldCoords : Int → ℚ
  textureGlobalToWorldCoords : Int → ℚ

/-- An `osg::Vec3f`: three `float` components. -/
structure Vec3f where
  x : ℚ
  y : ℚ
  z : ℚ
deriving DecidableEq

/-- Source `calculateLandHeight(x, y)` (lines 245-259).  `1.0f*x` and the
divisor are converted to `float`, the quotient is a `float` division,
`std::floor` and the conversion of its integral result to `int` are exact;
`return landHeight` converts the `float` to the `int` return type. -/
def calculateLandHeight (w : World) (x y : Int) : Int :=
  let cellX : Int := ⌊toFloat (toFloat x / toFloat (w.land.LAND_SIZE - 1 : Int))⌋
  let cellY : Int := ⌊toFloat (toFloat y / toFloat (w.land.LAND_SIZE - 1 : Int))⌋
  let localX : Int := x - cellX * (w.land.LAND_SIZE - 1)
  let localY : Int := y - cellY * (w.land.LAND_SIZE - 1)
  let landHeight : ℚ :=
    match w.getCell cellX cellY with
    | some cell => cell.getSumOfAlteredAndTrueHeight cellX cellY localX localY
    | none => 0
  truncToInt landHeight

/-- Body of the loop of `drawShapeSelection` for one `localPos` (source lines
140-165); every `++ [v]` is one `vertices->push_back(v)`.  The third argument
of each `osg::Vec3f` is the `int` value `calculateLandHeight(..) + 2`, converted
to `float` by the constructor. -/
def drawShapeStep (w : World) (mSelection : List Pos) (vertices : List Vec3f)
    (localPos : Pos) : List Vec3f :=
  let x : Int := localPos.1
  let y : Int := localPos.2
  let xWorldCoord : ℚ := w.vertexGlobalToWorldCoords x
  let yWorldCoord : ℚ := w.vertexGlobalToWorldCoords y
  let pointXY : Vec3f :=
    ⟨xWorldCoord, yWorldCoord, toFloat (calculateLandHeight w x y + 2 : Int)⟩
  let vertices := vertices ++ [pointXY]
  let vertices := vertices ++
    [⟨xWorldCoord, w.vertexGlobalToWorldCoords (y - 1),
      toFloat (calculateLandHeight w x (y - 1) + 2 : Int)⟩]
  let vertices := vertices ++ [pointXY]
  let vertices := vertices ++
    [⟨w.vertexGlobalToWorldCoords (x - 1), yWorldCoord,
      toFloat (calculateLandHeight w (x - 1) y + 2 : Int)⟩]
  let vertices :=
    if (x, y + 1) ∈ mSelection then vertices
    else
      (vertices ++ [pointXY]) ++
        [⟨xWorldCoord, w.vertexGlobalToWorldCoords (y + 1),
          toFloat (calculateLandHeight w x (y + 1) + 2 : Int)⟩]
  let vertices :=
    if (x + 1, y) ∈ mSelection then vertices
    else
      (vertices ++ [pointXY]) ++
        [⟨w.vertexGlobalToWorldCoords (x + 1), yWorldCoord,
          toFloat (calculateLandHeight w (x + 1) y + 2 : Int)⟩]
  vertices

/-- Source `drawShapeSelection(vertices)`: returns the array after all `push_back`s. -/
def drawShapeSelection (w : World) (mSelection : List Pos) (vertices : List Vec3f) :
    List Vec3f :=
  if mSelection.isEmpty = false then
    mSelection.foldl (drawShapeStep w mSelection) vertices
  else vertices

/-! ### TextureCell builder (`drawTextureSelection`, source lines 170-243)

The arithmetic of the source mixes `int` and `float`: an `int` operand of a
`float` operation is converted first (`floatOfInt`), and the `float` sum or
difference is rounded (`floatAdd`, `floatSub`).  `/` between two `int`s is the
truncating division of C++ (`Int.tdiv`). -/

/-- Conversion `int → float`. -/
def floatOfInt (n : Int) : ℚ := toFloat n

/-- Sum of two `float`s. -/
def floatAdd (a b : ℚ) : ℚ := toFloat (a + b)

/-- Difference of two `float`s. -/
def floatSub (a b : ℚ) : ℚ := toFloat (a - b)

/-- The literal `nudgePercentage = 0.25f` (line 175), a binary32 value. -/
def nudgePercentage : ℚ := 1 / 4

/-- Line 176: `const int nudgeOffset = (REAL_SIZE / LAND_TEXTURE_SIZE) * nudgePercentage`;
the `int` quotient is converted to `float`, multiplied, and the product is
converted back to `int`. -/
def nudgeOffset (land : Land) : Int :=
  truncToInt (toFloat
    (floatOfInt (Int.tdiv land.REAL_SIZE land.LAND_TEXTURE_SIZE) * nudgePercentage))

/-- Line 177: `const int landHeightsNudge = (REAL_SIZE / LAND_SIZE) / (LAND_SIZE - 1)`. -/
def landHeightsNudge (land : Land) : Int :=
  Int.tdiv (Int.tdiv land.REAL_SIZE land.LAND_SIZE) (land.LAND_SIZE - 1)

/-- Line 179: `textureSizeToLandSizeModifier = (LAND_SIZE - 1) / LAND_TEXTURE_SIZE`. -/
def textureSizeToLandSizeModifier (land : Land) : Int :=
  Int.tdiv (land.LAND_SIZE - 1) land.LAND_TEXTURE_SIZE

/-- The `int` expression `REAL_SIZE / (LAND_SIZE - 1)` of the four loops. -/
def vertexSpacing (land : Land) : Int :=
  Int.tdiv land.REAL_SIZE (land.LAND_SIZE - 1)

/-- The values `i = 1, .., textureSizeToLandSizeModifier` that
`for (int i = 1; i < (textureSizeToLandSizeModifier + 1); i++)` runs through. -/
def loopIndices (land : Land) : List Int :=
  (List.range' 1 (textureSizeToLandSizeModifier land).toNat).map (fun n : Nat => (n : Int))

/-- Body of the north loop (lines 199-202) for one `i`. -/
def drawNorthStep (w : World) (x y : Int) (vertices : List Vec3f) (i : Int) : List Vec3f :=
  let x1 : Int := x * textureSizeToLandSizeModifier w.land + landHeightsNudge w.land
  let y2 : Int := y * textureSizeToLandSizeModifier w.land +
    textureSizeToLandSizeModifier w.land - landHeightsNudge w.land
  let drawPreviousX : ℚ :=
    floatAdd (w.textureGlobalToWorldCoords x) (floatOfInt ((i - 1) * vertexSpacing w.land))
  let drawCurrentX : ℚ :=
    floatAdd (w.textureGlobalToWorldCoords x) (floatOfInt (i * vertexSpacing w.land))
  let vertices := vertices ++
    [⟨floatAdd drawPreviousX (floatOfInt (nudgeOffset w.land)),
      floatSub (w.textureGlobalToWorldCoords (y + 1)) (floatOfInt (nudgeOffset w.land)),
      floatOfInt (calculateLandHeight w (x1 + (i - 1)) y2 + 2)⟩]
  let vertices := vertices ++
    [⟨floatAdd drawCurrentX (floatOfInt (nudgeOffset w.land)),
      floatSub (w.textureGlobalToWorldCoords (y + 1)) (floatOfInt (nudgeOffset w.land)),
      floatOfInt (calculateLandHeight w (x1 + i) y2 + 2)⟩]
  vertices

/-- Body of the south loop (lines 211-214) for one `i`. -/
def drawSouthStep (w : World) (x y : Int) (vertices : List Vec3f) (i : Int) : List Vec3f :=
  let x1 : Int := x * textureSizeToLandSizeModifier w.land + landHeightsNudge w.land
  let y1 : Int := y * textureSizeToLandSizeModifier w.land - landHeightsNudge w.land
  let drawPreviousX : ℚ :=
    floatAdd (w.textureGlobalToWorldCoords x) (floatOfInt ((i - 1) * vertexSpacing w.land))
  let drawCurrentX : ℚ :=
    floatAdd (w.textureGlobalToWorldCoords x) (floatOfInt (i * vertexSpacing w.land))
  let vertices := vertices ++
    [⟨floatAdd drawPreviousX (floatOfInt (nudgeOffset w.land)),
      floatSub (w.textureGlobalToWorldCoords y) (floatOfInt (nudgeOffset w.land)),
      floatOfInt (calculateLandHeight w (x1 + (i - 1)) y1 + 2)⟩]
  let vertices := vertices ++
    [⟨floatAdd drawCurrentX (floatOfInt (nudgeOffset w.land)),
      floatSub (w.textureGlobalToWorldCoords y) (floatOfInt (nudgeOffset w.land)),
      floatOfInt (calculateLandHeight w (x1 + i) y1 + 2)⟩]
  vertices

/-- Body of the east loop (lines 223-226) for one `i`. -/
def drawEastStep (w : World) (x y : Int) (vertices : List Vec3f) (i : Int) : List Vec3f :=
  let x2 : Int := x * textureSizeToLandSizeModifier w.land +
    textureSizeToLandSizeModifier w.land + landHeightsNudge w.land
  let y1 : Int := y * textureSizeToLandSizeModifier w.land - landHeightsNudge w.land
  let drawPreviousY : ℚ :=
    floatAdd (w.textureGlobalToWorldCoords y) (floatOfInt ((i - 1) * vertexSpacing w.land))
  let drawCurrentY : ℚ :=
    floatAdd (w.textureGlobalToWorldCoords y) (floatOfInt (i * vertexSpacing w.land))
  let vertices := vertices ++
    [⟨floatAdd (w.textureGlobalToWorldCoords (x + 1)) (floatOfInt (nudgeOffset w.land)),
      floatSub drawPreviousY (floatOfInt (nudgeOffset w.land)),
      floatOfInt (calculateLandHeight w x2 (y1 + (i - 1)) + 2)⟩]
  let vertices := vertices ++
    [⟨floatAdd (w.textureGlobalToWorldCoords (x + 1)) (floatOfInt (nudgeOffset w.land)),
      floatSub drawCurrentY (floatOfInt (nudgeOffset w.land)),
      floatOfInt (calculateLandHeight w x2 (y1 + i) + 2)⟩]
  vertices

/-- Body of the west loop (lines 235-238) for one `i`. -/
def drawWestStep (w : World) (x y : Int) (vertices : List Vec3f) (i : Int) : List Vec3f :=
  let x1 : Int := x * textureSizeToLandSizeModifier w.land + landHeightsNudge w.land
  let y1 : Int := y * textureSizeToLandSizeModifier w.land - landHeightsNudge w.land
  let drawPreviousY : ℚ :=
    floatAdd (w.textureGlobalToWorldCoords y) (floatOfInt ((i - 1) * vertexSpacing w.land))
  let drawCurrentY : ℚ :=
    floatAdd (w.textureGlobalToWorldCoords y) (floatOfInt (i * vertexSpacing w.land))
  let vertices := vertices ++
    [⟨floatAdd (w.textureGlobalToWorldCoords x) (floatOfInt (nudgeOffset w.land)),
      floatSub drawPreviousY (floatOfInt (nudgeOffset w.land)),
      floatOfInt (calculateLandHeight w x1 (y1 + (i - 1)) + 2)⟩]
  let vertices := vertices ++
    [⟨floatAdd (w.textureGlobalToWorldCoords x) (floatOfInt (nudgeOffset w.land)),
      floatSub drawCurrentY (floatOfInt (nudgeOffset w.land)),
      floatOfInt (calculateLandHeight w x1 (y1 + i) + 2)⟩]
  vertices

/-- Body of the outer loop of `drawTextureSelection` for one `localPos` (lines
183-240): the four `std::find` tests, each guarding its inner loop. -/
def drawTextureStep (w : World) (mSelection : List Pos) (vertices : List Vec3f)
    (localPos : Pos) : List Vec3f :=
  let x : Int := localPos.1
  let y : Int := localPos.2
  let vertices :=
    if (x, y + 1) ∈ mSelection then vertices
    else (loopIndices w.land).foldl (drawNorthStep w x y) vertices
  let vertices :=
    if (x, y - 1) ∈ mSelection then vertices
    else (loopIndices w.land).foldl (drawSouthStep w x y) vertices
  let vertices :=
    if (x + 1, y) ∈ mSelection then vertices
    else (loopIndices w.land).foldl (drawEastStep w x y) vertices
  let vertices :=
    if (x - 1, y) ∈ mSelection then vertices
    else (loopIndices w.land).foldl (drawWestStep w x y) vertices
  vertices

/-- Source `drawTextureSelection(vertices)`: returns the array after all `push_back`s. -/
def drawTextureSelection (w : World) (mSelection : List Pos) (vertices : List Vec3f) :
    List Vec3f :=
  if mSelection.isEmpty = false then
    mSelection.foldl (drawTextureStep w mSelection) vertices
  else vertices

/-- The enumeration `TerrainSelectionType` that `update()` switches on. -/
inductive TerrainSelectionType where
  | Texture
  | Shape
deriving DecidableEq, Repr

/-- Source `update()` (lines 112-132), as far as the vertex array goes: a fresh
`osg::Vec3Array` is filled by the builder of the selection type and becomes the
vertex array of the new geometry. -/
def update (w : World) (mSelectionType : TerrainSelectionType) (mSelection : List Pos) :
    List Vec3f :=
  match mSelectionType with
  | .Texture => drawTextureSelection w mSelection []
  | .Shape => drawShapeSelection w mSelection []

/-- Lines 247-248 of `calculateLandHeight`: the cell index of a global vertex
coordinate, `std::floor(1.0f*g / (LAND_SIZE - 1))` converted to `int`. -/
def cellIndex (land : Land) (g : Int) : Int :=
  ⌊toFloat (toFloat g / toFloat (land.LAND_SIZE - 1 : Int))⌋

/-- Lines 249-250 of `calculateLandHeight`: the in-cell vertex index
`g - cell * (LAND_SIZE - 1)`. -/
def localIndex (land : Land) (g : Int) : Int :=
  g - cellIndex land g * (land.LAND_SIZE - 1)

/-! ### Reference definitions, written from the specification (§4.1, §4.4) -/

/-- The lift `heightLift = 2` world units (§4.1). -/
def heightLift : Int := 2

/-- World position of the lattice point `(xi, yi)` (§4.4):
`(vertexGlobalToWorld(xi), vertexGlobalToWorld(yi), sampleHeight(xi, yi) + heightLift)`,
the last component stored as a `float` like the other two. -/
def vertexEndpoint (w : World) (p : Pos) : Vec3f :=
  ⟨w.vertexGlobalToWorldCoords p.1, w.vertexGlobalToWorldCoords p.2,
    toFloat (calculateLandHeight w p.1 p.2 + heightLift : Int)⟩

/-- A segment from lattice point `a` to lattice point `b`: two consecutive
endpoints of the buffer. -/
def vertexSegment (w : World) (a b : Pos) : List Vec3f :=
  [vertexEndpoint w a, vertexEndpoint w b]

/-- Segments of one selected vertex in VertexShape mode (§4.4): south and west
always, north and east only when that neighbour is not in `committed`. -/
def vertexShapeSegments (w : World) (committed : List Pos) (p : Pos) : List Vec3f :=
  vertexSegment w p (p.1, p.2 - 1) ++ vertexSegment w p (p.1 - 1, p.2) ++
    (if (p.1, p.2 + 1) ∈ committed then [] else vertexSegment w p (p.1, p.2 + 1)) ++
    (if (p.1 + 1, p.2) ∈ committed then [] else vertexSegment w p (p.1 + 1, p.2))

/-- The VertexShape endpoint buffer of §4.4: the segments of every committed
position, in list order. -/
def vertexShapeBuffer (w : World) (committed : List Pos) : List Vec3f :=
  (committed.map (vertexShapeSegments w committed)).flatten

/-- Endpoint number `j` of a north or south side of the patch column `x`
(§4.4): `(textureGlobalToWorld(x) + j·Δ + nudge, textureGlobalToWorld(yEdge) − nudge,
sampleHeight(x·k + landHeightsNudge + j, row) + heightLift)`. -/
def textureHorizontalPoint (w : World) (x yEdge row j : Int) : Vec3f :=
  ⟨floatAdd (floatAdd (w.textureGlobalToWorldCoords x) (floatOfInt (j * vertexSpacing w.land)))
      (floatOfInt (nudgeOffset w.land)),
    floatSub (w.textureGlobalToWorldCoords yEdge) (floatOfInt (nudgeOffset w.land)),
    floatOfInt (calculateLandHeight w
      (x * textureSizeToLandSizeModifier w.land + landHeightsNudge w.land + j) row + heightLift)⟩

/-- Endpoint number `j` of an east or west side of the patch row `y` (§4.4):
`(textureGlobalToWorld(xEdge) + nudge, textureGlobalToWorld(y) + j·Δ − nudge,
sampleHeight(column, y·k − landHeightsNudge + j) + heightLift)`. -/
def textureVerticalPoint (w : World) (y xEdge column j : Int) : Vec3f :=
  ⟨floatAdd (w.textureGlobalToWorldCoords xEdge) (floatOfInt (nudgeOffset w.land)),
    floatSub (floatAdd (w.textureGlobalToWorldCoords y) (floatOfInt (j * vertexSpacing w.land)))
      (floatOfInt (nudgeOffset w.land)),
    floatOfInt (calculateLandHeight w column
      (y * textureSizeToLandSizeModifier w.land - landHeightsNudge w.land + j) + heightLift)⟩

/-- A side subdivided into `k` sub-segments: sub-segment `i = 1, .., k` runs from
endpoint `i - 1` to endpoint `i`. -/
def textureSide (w : World) (endpoint : Int → Vec3f) : List Vec3f :=
  (loopIndices w.land).flatMap (fun i => [endpoint (i - 1), endpoint i])

/-- Segments of one selected patch in TextureCell mode (§4.4): the sides north,
south, east, west in that order, each present only when the neighbour patch on
that side is not in `committed`. -/
def texturePatchSegments (w : World) (committed : List Pos) (p : Pos) : List Vec3f :=
  (if (p.1, p.2 + 1) ∈ committed then []
    else textureSide w (textureHorizontalPoint w p.1 (p.2 + 1)
      (p.2 * textureSizeToLandSizeModifier w.land + textureSizeToLandSizeModifier w.land -
        landHeightsNudge w.land))) ++
  (if (p.1, p.2 - 1) ∈ committed then []
    else textureSide w (textureHorizontalPoint w p.1 p.2
      (p.2 * textureSizeToLandSizeModifier w.land - landHeightsNudge w.land))) ++
  (if (p.1 + 1, p.2) ∈ committed then []
    else textureSide w (textureVerticalPoint w p.2 (p.1 + 1)
      (p.1 * textureSizeToLandSizeModifier w.land + textureSizeToLandSizeModifier w.land +
        landHeightsNudge w.land))) ++
  (if (p.1 - 1, p.2) ∈ committed then []
    else textureSide w (textureVerticalPoint w p.2 p.1
      (p.1 * textureSizeToLandSizeModifier w.land + landHeightsNudge w.land)))

/-- The TextureCell endpoint buffer of §4.4: the segments of every committed
patch, in list order. -/
def textureCellBuffer (w : World) (committed : List Pos) : List Vec3f :=
  (committed.map (texturePatchSegments w committed)).flatten

/-- Modelled from the spec: `CSMWorld::CellCoordinates` and `ESM::Land` are not
among the sources; `vertexGlobalToWorld` is linear with slope
`REAL_SIZE / (LAND_SIZE - 1)` and `textureGlobalToWorld` with slope
`REAL_SIZE / LAND_TEXTURE_SIZE` (§4.1), here with `REAL_SIZE = 8192`,
`LAND_SIZE = 65`, `LAND_TEXTURE_SIZE = 16`, and no cell is loaded. -/
def emptyWorld : World :=
  { land := { REAL_SIZE := 8192, LAND_SIZE := 65, LAND_TEXTURE_SIZE := 16 }
    getCell := fun _ _ => none
    vertexGlobalToWorldCoords := fun i => 128 * i
    textureGlobalToWorldCoords := fun i => 512 * i }

/-- The world of `emptyWorld` in which every cell is loaded and reports the same
height `h` at every vertex. -/
def constantWorld (h : ℚ) : World :=
  { emptyWorld with getCell := fun _ _ => some ⟨fun _ _ _ _ => h⟩ }

/-- The height-index bias as §4.4 of the specification writes it:
`floor((REAL_SIZE/(LAND_SIZE−1)) / (LAND_SIZE−1))`, in integer arithmetic. -/
def specLandHeightsNudge (land : Land) : Int :=
  (land.REAL_SIZE / (land.LAND_SIZE - 1)) / (land.LAND_SIZE - 1)

/-- The segments of an endpoint buffer: consecutive pairs of points, as the
`osg::PrimitiveSet::LINES` primitive of `update()` reads them. -/
def segmentsOf : List Vec3f → List (Vec3f × Vec3f)
  | a :: b :: rest => (a, b) :: segmentsOf rest
  | _ => []

/-- The block of points that one selected position contributes, by selection
type. -/
def positionBlock (w : World) (t : TerrainSelectionType) (committed : List Pos) (p : Pos) :
    List Vec3f :=
  match t with
  | .Texture => texturePatchSegments w committed p
  | .Shape => vertexShapeSegments w committed p

/-! ### Lattice view of the VertexShape buffer

Every point that `drawShapeSelection` pushes is the world point of a lattice
vertex; the lists below record, segment by segment, which vertices those are. -/

/-- The lattice segments (start vertex, end vertex) of one selected vertex, in
the order of the `push_back`s of the loop body of `drawShapeSelection`. -/
def shapeLatticeSegments (mSelection : List Pos) (p : Pos) : List (Pos × Pos) :=
  [(p, (p.1, p.2 - 1)), (p, (p.1 - 1, p.2))] ++
    (if (p.1, p.2 + 1) ∈ mSelection then [] else [(p, (p.1, p.2 + 1))]) ++
    (if (p.1 + 1, p.2) ∈ mSelection then [] else [(p, (p.1 + 1, p.2))])

/-- The lattice segments of the whole VertexShape buffer. -/
def shapeLattice (mSelection : List Pos) : List (Pos × Pos) :=
  (mSelection.map (shapeLatticeSegments mSelection)).flatten

/-- Two lattice vertices are 4-neighbours: they differ by one step along one
axis. -/
def Adjacent (a b : Pos) : Prop :=
  (a.1 = b.1 ∧ (b.2 = a.2 + 1 ∨ b.2 = a.2 - 1)) ∨
  (a.2 = b.2 ∧ (b.1 = a.1 + 1 ∨ b.1 = a.1 - 1))

/-- The four lattice edges at a vertex, as unordered pairs. -/
def incidentEdges (p : Pos) : List (Sym2 Pos) :=
  [Sym2.mk (p, (p.1, p.2 - 1)), Sym2.mk (p, (p.1 - 1, p.2)),
    Sym2.mk (p, (p.1, p.2 + 1)), Sym2.mk (p, (p.1 + 1, p.2))]

/-- The set of lattice edges with at least one endpoint in `committed`. -/
def touchedEdges (committed : List Pos) : Finset (Sym2 Pos) :=
  (committed.flatMap incidentEdges).toFinset

/-! ### TextureCell reference with explicit constants

The reference buffer of TextureCell mode as a function of the four constants
`k`, `D`, `nudge` and `n`; none of the program's helper definitions is used. -/

/-- Endpoint `j` of a north or south side:
`(textureGlobalToWorld(x) + j*D + nudge, textureGlobalToWorld(yEdge) - nudge,
sampleHeight(x*k + n + j, row) + 2)`. -/
def referenceNorthSouthPoint (w : World) (k D nudge n : Int) (x yEdge row j : Int) : Vec3f :=
  ⟨floatAdd (floatAdd (w.textureGlobalToWorldCoords x) (floatOfInt (j * D))) (floatOfInt nudge),
    floatSub (w.textureGlobalToWorldCoords yEdge) (floatOfInt nudge),
    floatOfInt (calculateLandHeight w (x * k + n + j) row + 2)⟩

/-- Endpoint `j` of an east or west side:
`(textureGlobalToWorld(xEdge) + nudge, textureGlobalToWorld(y) + j*D - nudge,
sampleHeight(column, y*k - n + j) + 2)`. -/
def referenceEastWestPoint (w : World) (k D nudge n : Int) (y xEdge column j : Int) : Vec3f :=
  ⟨floatAdd (w.textureGlobalToWorldCoords xEdge) (floatOfInt nudge),
    floatSub (floatAdd (w.textureGlobalToWorldCoords y) (floatOfInt (j * D))) (floatOfInt nudge),
    floatOfInt (calculateLandHeight w column (y * k - n + j) + 2)⟩

/-- The `k` sub-segments of a side: sub-segment `i = 1, .., k` runs from
endpoint `i - 1` to endpoint `i`. -/
def referenceSide (k : Int) (endpoint : Int → Vec3f) : List Vec3f :=
  ((List.range k.toNat).map (fun i : Nat => (i : Int) + 1)).flatMap
    (fun i => [endpoint (i - 1), endpoint i])

/-- The sides of one committed patch `(x, y)`: north, south, east, west in that
order, a side being present exactly when the neighbour patch on that side is
not in `committed`. -/
def referencePatch (w : World) (k D nudge n : Int) (committed : List Pos) (p : Pos) :
    List Vec3f :=
  (if (p.1, p.2 + 1) ∈ committed then []
    else referenceSide k
      (referenceNorthSouthPoint w k D nudge n p.1 (p.2 + 1) (p.2 * k + k - n))) ++
  (if (p.1, p.2 - 1) ∈ committed then []
    else referenceSide k (referenceNorthSouthPoint w k D nudge n p.1 p.2 (p.2 * k - n))) ++
  (if (p.1 + 1, p.2) ∈ committed then []
    else referenceSide k
      (referenceEastWestPoint w k D nudge n p.2 (p.1 + 1) (p.1 * k + k + n))) ++
  (if (p.1 - 1, p.2) ∈ committed then []
    else referenceSide k (referenceEastWestPoint w k D nudge n p.2 p.1 (p.1 * k + n)))

/-- The reference buffer: the patches of `committed` in list order. -/
def referenceTextureBuffer (w : World) (k D nudge n : Int) (committed : List Pos) :
    List Vec3f :=
  (committed.map (referencePatch w k D nudge n committed)).flatten

end CSVRender

open CSVRender CSVRender.TerrainSelection

/-! ## Helper lemmas on the selection protocol -/

theorem mem_flipSelect_iff {sel : List Pos} (hnd : sel.Nodup) (p q : Pos) :
    p ∈ flipSelect sel q ↔ Xor' (p ∈ sel) (p = q) := by
  unfold flipSelect
  by_cases hq : q ∈ sel
  · rw [if_pos hq, hnd.mem_erase_iff]
    by_cases hpq : p = q
    · subst hpq; simp [Xor', hq]
    · simp [Xor', hpq]
  · rw [if_neg hq]
    by_cases hpq : p = q
    · subst hpq; simp [Xor', hq]
    · simp [Xor', hpq]

theorem nodup_flipSelect {sel : List Pos} (hnd : sel.Nodup) (q : Pos) :
    (flipSelect sel q).Nodup := by
  unfold flipSelect
  by_cases hq : q ∈ sel
  · rw [if_pos hq]; exact hnd.erase q
  · rw [if_neg hq]
    exact List.Nodup.append hnd (List.nodup_singleton q) (by simpa using hq)

theorem nodup_dragStep {s : TerrainSelection} (hnd : s.mSelection.Nodup) (q : Pos) :
    (dragStep s q).mSelection.Nodup := by
  unfold dragStep
  by_cases hq : q ∈ s.mTemporarySelection
  · simpa [hq] using hnd
  · simpa [hq] using nodup_flipSelect hnd q

theorem nodup_foldl_dragStep (ps : List Pos) :
    ∀ s : TerrainSelection, s.mSelection.Nodup → (ps.foldl dragStep s).mSelection.Nodup := by
  induction ps with
  | nil => intro s h; simpa using h
  | cons q ps ih => intro s h; exact ih _ (nodup_dragStep h q)

theorem temp_foldl_dragStep (ps : List Pos) :
    ∀ s : TerrainSelection,
      (ps.foldl dragStep s).mTemporarySelection = s.mTemporarySelection ++ ps := by
  induction ps with
  | nil => intro s; simp
  | cons q ps ih => intro s; simp [ih, dragStep]

theorem mem_foldl_dragStep (ps : List Pos) :
    ∀ s : TerrainSelection, s.mSelection.Nodup → ∀ p : Pos,
      (p ∈ (ps.foldl dragStep s).mSelection ↔
        Xor' (p ∈ s.mSelection) (p ∈ ps ∧ p ∉ s.mTemporarySelection)) := by
  induction ps with
  | nil => intro s _ p; simp [Xor']
  | cons q ps ih =>
    intro s hnd p
    rw [List.foldl_cons, ih _ (nodup_dragStep hnd q) p]
    have hsel : p ∈ (dragStep s q).mSelection ↔
        (if q ∈ s.mTemporarySelection then p ∈ s.mSelection
          else Xor' (p ∈ s.mSelection) (p = q)) := by
      unfold dragStep
      by_cases hq : q ∈ s.mTemporarySelection
      · simp [hq]
      · simp only [hq, if_false]; exact mem_flipSelect_iff hnd p q
    have htmp : (dragStep s q).mTemporarySelection = s.mTemporarySelection ++ [q] := rfl
    rw [hsel, htmp]
    by_cases hq : q ∈ s.mTemporarySelection
    · by_cases hpq : p = q
      · subst hpq; simp [Xor', hq]
      · simp [Xor', hq, hpq]
    · by_cases hpq : p = q
      · subst hpq; simp [Xor', hq]
      · simp [Xor', hq, hpq]

theorem foldl_toggleSelect_true (Ls : List (List Pos)) :
    ∀ s : TerrainSelection,
      Ls.foldl (fun st L => toggleSelect st L true) s = Ls.flatten.foldl dragStep s := by
  induction Ls with
  | nil => intro s; rfl
  | cons L Ls ih =>
    intro s
    rw [List.foldl_cons, ih, List.flatten_cons, List.foldl_append]
    simp [toggleSelect]

theorem nodup_foldl_flipSelect (ps : List Pos) :
    ∀ sel : List Pos, sel.Nodup → (ps.foldl flipSelect sel).Nodup := by
  induction ps with
  | nil => intro sel h; simpa using h
  | cons q ps ih => intro sel h; exact ih _ (nodup_flipSelect h q)

theorem mem_foldl_flipSelect (ps : List Pos) :
    ∀ sel : List Pos, sel.Nodup → ∀ p : Pos,
      (p ∈ ps.foldl flipSelect sel ↔ Xor' (p ∈ sel) (Odd (ps.count p))) := by
  induction ps with
  | nil => intro sel _ p; simp [Xor']
  | cons q ps ih =>
    intro sel hnd p
    rw [List.foldl_cons, ih _ (nodup_flipSelect hnd q) p, mem_flipSelect_iff hnd p q]
    by_cases hpq : p = q
    · subst hpq
      rw [List.count_cons_self, Nat.odd_add_one]
      by_cases h1 : p ∈ sel <;> by_cases h2 : Odd (List.count p ps) <;> simp [Xor', h1, h2]
    · rw [List.count_cons_of_ne hpq]
      simp [Xor', hpq]

theorem nodup_toggleSelect {s : TerrainSelection} (hnd : s.mSelection.Nodup)
    (ps : List Pos) (b : Bool) : (toggleSelect s ps b).mSelection.Nodup := by
  unfold toggleSelect
  cases b with
  | true => simpa using nodup_foldl_dragStep ps s hnd
  | false =>
    by_cases hf : s.mDraggedOperationFlag = false
    · simpa [hf] using nodup_foldl_flipSelect ps _ hnd
    · simpa [hf] using hnd

theorem nodup_addSelect {s : TerrainSelection} (hnd : s.mSelection.Nodup) (p : Pos) :
    (addSelect s p).mSelection.Nodup := by
  unfold addSelect
  by_cases hp : p ∈ s.mSelection
  · simpa [hp] using hnd
  · simp only [hp, if_false]
    exact List.Nodup.append hnd (List.nodup_singleton p) (by simpa using hp)

theorem nodup_foldl_run (ms : List Mutation) :
    ∀ s : TerrainSelection, s.mSelection.Nodup →
      (∀ ps, Mutation.only ps ∈ ms → ps.Nodup) →
      (ms.foldl Mutation.run s).mSelection.Nodup := by
  induction ms with
  | nil => intro s h _; simpa using h
  | cons m ms ih =>
    intro s h hms
    rw [List.foldl_cons]
    refine ih _ ?_ (fun ps hps => hms ps (List.mem_cons_of_mem _ hps))
    cases m with
    | only ps => exact hms ps (List.mem_cons_self _ _)
    | add p => exact nodup_addSelect h p
    | toggle ps b => exact nodup_toggleSelect h ps b

/-! ## Selection protocol: the claims -/

/-- C1: starting from a duplicate-free `mSelection` and an empty
`mTemporarySelection`, after any sequence of calls `toggleSelect(L, true)` a
position is selected iff exactly one of "it was selected before" and "it occurs
in one of the lists" holds. -/
theorem drag_toggle_flips_each_position_once (s : TerrainSelection) (Ls : List (List Pos))
    (hnd : s.mSelection.Nodup) (htmp : s.mTemporarySelection = []) (p : Pos) :
    p ∈ (Ls.foldl (fun st L => toggleSelect st L true) s).mSelection ↔
      Xor' (p ∈ s.mSelection) (∃ L ∈ Ls, p ∈ L) := by
  rw [foldl_toggleSelect_true, mem_foldl_dragStep _ s hnd p, htmp]
  simp [List.mem_flatten]

theorem drag_toggle_flips_each_position_once_witness :
    (1, 2) ∈ ([[(1, 1)], [(1, 1), (1, 2)], [(1, 2), (0, 0), (0, 0)]].foldl
        (fun st L => toggleSelect st L true)
        ({ mSelection := [(0, 0), (5, 5)], mTemporarySelection := [],
           mDraggedOperationFlag := false } : TerrainSelection)).mSelection ↔
      Xor' ((1, 2) ∈ ([(0, 0), (5, 5)] : List Pos))
        (∃ L ∈ ([[(1, 1)], [(1, 1), (1, 2)], [(1, 2), (0, 0), (0, 0)]] : List (List Pos)),
          (1, 2) ∈ L) :=
  drag_toggle_flips_each_position_once _ _ (by decide) rfl _

/-- Scenario 4 of the specification, evaluated on the embedding: the second
drag call does not toggle `(1,1)` again. -/
theorem drag_scenario_four :
    (toggleSelect (toggleSelect init [(1, 1)] true) [(1, 1), (1, 2)] true).mSelection
      = [(1, 1), (1, 2)] := by
  decide

/-- C2: when `mDraggedOperationFlag` is set, `toggleSelect(positions, false)`
keeps `mSelection`, empties `mTemporarySelection` and clears the flag, whatever
`positions` is. -/
theorem drag_release_is_state_reset (s : TerrainSelection) (positions : List Pos)
    (hflag : s.mDraggedOperationFlag = true) :
    toggleSelect s positions false =
      { mSelection := s.mSelection, mTemporarySelection := [],
        mDraggedOperationFlag := false } := by
  simp [toggleSelect, hflag]

theorem drag_release_is_state_reset_witness :
    toggleSelect
        ({ mSelection := [(1, 1), (1, 2)], mTemporarySelection := [(1, 1), (1, 1), (1, 2)],
           mDraggedOperationFlag := true } : TerrainSelection) [(9, 9)] false =
      { mSelection := [(1, 1), (1, 2)], mTemporarySelection := [],
        mDraggedOperationFlag := false } :=
  drag_release_is_state_reset _ _ rfl

theorem flag_foldl_dragStep (ps : List Pos) (hne : ps ≠ []) :
    ∀ s : TerrainSelection, (ps.foldl dragStep s).mDraggedOperationFlag = true := by
  induction ps with
  | nil => exact absurd rfl hne
  | cons q ps ih =>
    intro s
    cases ps with
    | nil => rfl
    | cons r rs => exact ih (List.cons_ne_nil r rs) (dragStep s q)

/-- Release after a drag call that presented at least one position: the flag was
set by the drag call, so the release call resets the drag state and keeps
`mSelection`. -/
theorem release_after_nonempty_drag (s : TerrainSelection) (ps1 ps2 : List Pos)
    (hne : ps1 ≠ []) :
    (toggleSelect s ps1 true).mDraggedOperationFlag = true ∧
    toggleSelect (toggleSelect s ps1 true) ps2 false =
      { mSelection := (toggleSelect s ps1 true).mSelection, mTemporarySelection := [],
        mDraggedOperationFlag := false } := by
  have hflag : (toggleSelect s ps1 true).mDraggedOperationFlag = true := by
    simpa [toggleSelect] using flag_foldl_dragStep ps1 hne s
  refine ⟨hflag, ?_⟩
  generalize toggleSelect s ps1 true = s1 at hflag
  simp [toggleSelect, hflag]

/-- C4: starting from the constructor state, after any sequence of
`onlySelect`, `addSelect` and `toggleSelect` calls in which every list given to
`onlySelect` is duplicate-free, `mSelection` has no duplicates. -/
theorem committed_stays_duplicate_free (ms : List Mutation)
    (honly : ∀ ps, Mutation.only ps ∈ ms → ps.Nodup) :
    (ms.foldl Mutation.run init).mSelection.Nodup :=
  nodup_foldl_run ms init List.nodup_nil honly

theorem committed_stays_duplicate_free_witness :
    (([Mutation.toggle [(1, 1), (1, 1)] true, Mutation.only [(0, 0), (1, 0)],
        Mutation.add (0, 0), Mutation.toggle [(2, 2), (2, 2), (2, 2)] true,
        Mutation.toggle [(0, 0)] false, Mutation.toggle [(1, 0), (1, 0), (3, 3)] false] :
        List Mutation).foldl Mutation.run init).mSelection.Nodup :=
  committed_stays_duplicate_free _ (by
    intro ps hps
    simp at hps
    subst hps
    decide)

/-- C5: `onlySelect(S)` followed by `getTerrainSelection()` returns `S` itself,
for every list `S` and every prior state. -/
theorem onlySelect_get_round_trip (s : TerrainSelection) (S : List Pos) :
    (onlySelect s S).getTerrainSelection = S := rfl

/-- C6: `addSelect(p)` keeps `mSelection` when `p` is already a member and
appends `p` at the end otherwise; a second `addSelect(p)` changes nothing; the
drag fields are untouched by one or two calls. -/
theorem addSelect_idempotent_append_only (s : TerrainSelection) (p : Pos) :
    (addSelect s p).mSelection =
        (if p ∈ s.mSelection then s.mSelection else s.mSelection ++ [p]) ∧
    (addSelect (addSelect s p) p).mSelection = (addSelect s p).mSelection ∧
    (addSelect s p).mTemporarySelection = s.mTemporarySelection ∧
    (addSelect s p).mDraggedOperationFlag = s.mDraggedOperationFlag ∧
    (addSelect (addSelect s p) p).mTemporarySelection = s.mTemporarySelection ∧
    (addSelect (addSelect s p) p).mDraggedOperationFlag = s.mDraggedOperationFlag := by
  by_cases hp : p ∈ s.mSelection
  · simp [addSelect, hp]
  · simp [addSelect, hp]

/-- C7: with `mDraggedOperationFlag = false` and a duplicate-free `mSelection`,
after `toggleSelect(ps, false)` a position is selected iff "it was selected
before" differs from "it occurs an odd number of times in `ps`"; the drag fields
are unchanged. -/
theorem click_toggle_flips_by_parity (s : TerrainSelection) (ps : List Pos)
    (hflag : s.mDraggedOperationFlag = false) (hnd : s.mSelection.Nodup) (p : Pos) :
    (p ∈ (toggleSelect s ps false).mSelection ↔
        Xor' (p ∈ s.mSelection) (Odd (ps.count p))) ∧
    (toggleSelect s ps false).mTemporarySelection = s.mTemporarySelection ∧
    (toggleSelect s ps false).mDraggedOperationFlag = s.mDraggedOperationFlag := by
  have h : toggleSelect s ps false =
      { s with mSelection := ps.foldl flipSelect s.mSelection } := by
    simp [toggleSelect, hflag]
  rw [h]
  exact ⟨mem_foldl_flipSelect ps _ hnd p, rfl, rfl⟩

theorem click_toggle_flips_by_parity_witness :
    ((3, 4) ∈ (toggleSelect
          ({ mSelection := [(3, 4), (0, 0)], mTemporarySelection := [(7, 7)],
             mDraggedOperationFlag := false } : TerrainSelection)
          [(3, 4), (1, 1), (3, 4), (3, 4)] false).mSelection ↔
        Xor' ((3, 4) ∈ ([(3, 4), (0, 0)] : List Pos))
          (Odd (([(3, 4), (1, 1), (3, 4), (3, 4)] : List Pos).count (3, 4)))) ∧
    (toggleSelect
          ({ mSelection := [(3, 4), (0, 0)], mTemporarySelection := [(7, 7)],
             mDraggedOperationFlag := false } : TerrainSelection)
          [(3, 4), (1, 1), (3, 4), (3, 4)] false).mTemporarySelection = [(7, 7)] ∧
    (toggleSelect
          ({ mSelection := [(3, 4), (0, 0)], mTemporarySelection := [(7, 7)],
             mDraggedOperationFlag := false } : TerrainSelection)
          [(3, 4), (1, 1), (3, 4), (3, 4)] false).mDraggedOperationFlag = false :=
  click_toggle_flips_by_parity _ _ rfl (by decide) _

/-! ## VertexShape boundary builder -/

theorem drawShapeStep_eq (w : World) (sel : List Pos) (vertices : List Vec3f) (p : Pos) :
    drawShapeStep w sel vertices p = vertices ++ vertexShapeSegments w sel p := by
  unfold drawShapeStep vertexShapeSegments vertexSegment vertexEndpoint heightLift
  by_cases hn : (p.1, p.2 + 1) ∈ sel <;> by_cases he : (p.1 + 1, p.2) ∈ sel <;>
    simp [hn, he]

theorem foldl_drawShapeStep (w : World) (sel : List Pos) (l : List Pos) :
    ∀ vertices : List Vec3f,
      l.foldl (drawShapeStep w sel) vertices =
        vertices ++ (l.map (vertexShapeSegments w sel)).flatten := by
  induction l with
  | nil => intro vertices; simp
  | cons p l ih =>
    intro vertices
    rw [List.foldl_cons, ih, drawShapeStep_eq]
    simp [List.append_assoc]

theorem drawShapeSelection_eq (w : World) (sel : List Pos) (vertices : List Vec3f) :
    drawShapeSelection w sel vertices = vertices ++ vertexShapeBuffer w sel := by
  unfold drawShapeSelection vertexShapeBuffer
  cases sel with
  | nil => simp
  | cons p l =>
    have hne : (p :: l).isEmpty = false := rfl
    rw [if_pos hne, foldl_drawShapeStep]

/-- C8: for every committed list, the endpoint buffer that `drawShapeSelection`
fills (starting from the fresh array of `update()`) is the reference buffer:
per committed position in list order the segments to the south and west
neighbour, then to the north and to the east neighbour when that neighbour is
not committed, every endpoint being
`(vertexGlobalToWorld xi, vertexGlobalToWorld yi, sampleHeight xi yi + 2)`. -/
theorem drawShapeSelection_eq_reference (w : World) (committed : List Pos) :
    drawShapeSelection w committed [] = vertexShapeBuffer w committed := by
  rw [drawShapeSelection_eq]; rfl

theorem not_mem_of_snd_ne {a b : Int} {l : List Pos} (h : ∀ q ∈ l, q.2 ≠ b) :
    (a, b) ∉ l :=
  fun hm => h (a, b) hm rfl

/-- C9, as stated, fails: for `[(0,0),(1,0)]` the builder pushes 14 endpoints,
not 12, and the segment from `(1,0)` west to `(0,0)` is among them (endpoints 8
and 9 of the buffer). -/
theorem adjacent_vertices_not_six_segments :
    ¬ ((drawShapeSelection emptyWorld [(0, 0), (1, 0)] []).length = 12) ∧
    ((drawShapeSelection emptyWorld [(0, 0), (1, 0)] []).drop 8).take 2 =
      vertexSegment emptyWorld (1, 0) (0, 0) := by
  constructor
  · decide
  · rfl

/-- C9, amended: for `committed = [(x,y),(x+1,y)]` only the east edge of
`(x,y)` is suppressed; the west edge of `(x+1,y)` is pushed like every south and
west edge, and the buffer consists of exactly 7 segments (14 endpoints). -/
theorem adjacent_vertices_seven_segments (w : World) (x y : Int) :
    drawShapeSelection w [(x, y), (x + 1, y)] [] =
      vertexSegment w (x, y) (x, y - 1) ++ vertexSegment w (x, y) (x - 1, y) ++
        vertexSegment w (x, y) (x, y + 1) ++
        vertexSegment w (x + 1, y) (x + 1, y - 1) ++ vertexSegment w (x + 1, y) (x, y) ++
        vertexSegment w (x + 1, y) (x + 1, y + 1) ++
        vertexSegment w (x + 1, y) (x + 1 + 1, y) ∧
    (drawShapeSelection w [(x, y), (x + 1, y)] []).length = 14 := by
  have hN1 : (x, y + 1) ∉ [(x, y), (x + 1, y)] :=
    not_mem_of_snd_ne (by intro q hq; simp at hq; rcases hq with rfl | rfl <;> simp)
  have hN2 : (x + 1, y + 1) ∉ [(x, y), (x + 1, y)] :=
    not_mem_of_snd_ne (by intro q hq; simp at hq; rcases hq with rfl | rfl <;> simp)
  have hE1 : (x + 1, y) ∈ [(x, y), (x + 1, y)] := by simp
  have hE2 : (x + 1 + 1, y) ∉ [(x, y), (x + 1, y)] := by
    intro h
    simp at h
    omega
  have hbuf : drawShapeSelection w [(x, y), (x + 1, y)] [] =
      vertexSegment w (x, y) (x, y - 1) ++ vertexSegment w (x, y) (x - 1, y) ++
        vertexSegment w (x, y) (x, y + 1) ++
        vertexSegment w (x + 1, y) (x + 1, y - 1) ++ vertexSegment w (x + 1, y) (x, y) ++
        vertexSegment w (x + 1, y) (x + 1, y + 1) ++
        vertexSegment w (x + 1, y) (x + 1 + 1, y) := by
    rw [drawShapeSelection_eq]
    simp only [vertexShapeBuffer, vertexShapeSegments, List.map_cons, List.map_nil,
      List.flatten_cons, List.flatten_nil, if_neg hN1, if_neg hN2, if_pos hE1, if_neg hE2,
      List.nil_append, List.append_nil, List.append_assoc, add_sub_cancel_right]
  refine ⟨hbuf, ?_⟩
  rw [hbuf]
  simp [vertexSegment]

/-- C10: for every position `(x, y)`, with `committed = [(x,y)]` the buffer
holds exactly 4 segments (8 endpoints), to `(x,y-1)`, `(x-1,y)`, `(x,y+1)` and
`(x+1,y)` in that order, and the first endpoint of each segment is
`(vertexGlobalToWorld x, vertexGlobalToWorld y, sampleHeight x y + 2)`. -/
theorem single_vertex_four_segments (w : World) (x y : Int) :
    drawShapeSelection w [(x, y)] [] =
      [⟨w.vertexGlobalToWorldCoords x, w.vertexGlobalToWorldCoords y,
          toFloat (calculateLandHeight w x y + 2 : Int)⟩, vertexEndpoint w (x, y - 1),
        ⟨w.vertexGlobalToWorldCoords x, w.vertexGlobalToWorldCoords y,
          toFloat (calculateLandHeight w x y + 2 : Int)⟩, vertexEndpoint w (x - 1, y),
        ⟨w.vertexGlobalToWorldCoords x, w.vertexGlobalToWorldCoords y,
          toFloat (calculateLandHeight w x y + 2 : Int)⟩, vertexEndpoint w (x, y + 1),
        ⟨w.vertexGlobalToWorldCoords x, w.vertexGlobalToWorldCoords y,
          toFloat (calculateLandHeight w x y + 2 : Int)⟩, vertexEndpoint w (x + 1, y)] ∧
    (drawShapeSelection w [(x, y)] []).length = 8 := by
  have hN : (x, y + 1) ∉ [(x, y)] := by simp
  have hE : (x + 1, y) ∉ [(x, y)] := by simp
  have hbuf : drawShapeSelection w [(x, y)] [] =
      vertexSegment w (x, y) (x, y - 1) ++ vertexSegment w (x, y) (x - 1, y) ++
        vertexSegment w (x, y) (x, y + 1) ++ vertexSegment w (x, y) (x + 1, y) := by
    rw [drawShapeSelection_eq]
    simp only [vertexShapeBuffer, vertexShapeSegments, List.map_cons, List.map_nil,
      List.flatten_cons, List.flatten_nil, if_neg hN, if_neg hE,
      List.nil_append, List.append_nil, List.append_assoc]
  rw [hbuf]
  exact ⟨rfl, rfl⟩

/-! ## The number embedding: values that `toFloat` leaves alone -/

/-- An integer is its own nearest integer. -/
theorem roundTiesEven_intCast (z : Int) : roundTiesEven (z : ℚ) = z := by
  simp [roundTiesEven]

/-- A value `m * 2^k` with a significand of at most 24 bits is a binary32 value:
rounding does not change it. -/
theorem toFloat_of_representable (m k : Int) (hm : |m| < 2 ^ 24) :
    toFloat ((m : ℚ) * 2 ^ k) = (m : ℚ) * 2 ^ k := by
  by_cases hm0 : m = 0
  · subst hm0; simp [toFloat]
  have h2k : (0 : ℚ) < 2 ^ k := zpow_pos (by norm_num) k
  have hq0 : (m : ℚ) * 2 ^ k ≠ 0 :=
    mul_ne_zero (by exact_mod_cast hm0) (ne_of_gt h2k)
  have hpos : (0 : ℚ) < |(m : ℚ) * 2 ^ k| := abs_pos.mpr hq0
  have hmq : |(m : ℚ)| < 2 ^ 24 := by exact_mod_cast hm
  have hlt : |(m : ℚ) * 2 ^ k| < ((2 : ℕ) : ℚ) ^ (24 + k) := by
    rw [abs_mul, abs_of_pos h2k, zpow_add₀ (by norm_num)]
    have : (((2 : ℕ) : ℚ)) ^ (24 : ℤ) = 2 ^ 24 := by norm_num
    rw [this]
    have h2k' : (((2 : ℕ) : ℚ)) ^ k = 2 ^ k := by norm_num
    rw [h2k']
    exact mul_lt_mul_of_pos_right hmq h2k
  have hlog : Int.log 2 |(m : ℚ) * 2 ^ k| < 24 + k :=
    (Int.lt_zpow_iff_log_lt (by norm_num) hpos).1 hlt
  obtain ⟨n, hn⟩ : ∃ n : ℕ, k - (Int.log 2 |(m : ℚ) * 2 ^ k| - 23) = n :=
    Int.eq_ofNat_of_zero_le (by omega)
  unfold toFloat
  rw [if_neg hq0]
  simp only []
  have hdiv : (m : ℚ) * 2 ^ k / 2 ^ (Int.log 2 |(m : ℚ) * 2 ^ k| - 23) =
      ((m * 2 ^ n : Int) : ℚ) := by
    rw [mul_div_assoc, ← zpow_sub₀ (by norm_num), hn]
    push_cast
    rw [zpow_natCast]
  rw [hdiv, roundTiesEven_intCast]
  push_cast
  rw [mul_assoc, ← zpow_natCast, ← zpow_add₀ (by norm_num), ← hn]
  congr 2
  ring

/-- Integers below `2^24` in absolute value convert to `float` exactly. -/
theorem toFloat_intCast (n : Int) (hn : |n| < 2 ^ 24) : toFloat (n : ℚ) = n := by
  simpa using toFloat_of_representable n 0 hn

/-! ## TextureCell boundary builder -/

/-- A loop whose body appends `f i` to the array appends the concatenation of
the `f i`. -/
theorem foldl_append_eq {α β : Type} (step : List β → α → List β) (f : α → List β)
    (hstep : ∀ vs i, step vs i = vs ++ f i) (l : List α) :
    ∀ vs : List β, l.foldl step vs = vs ++ l.flatMap f := by
  induction l with
  | nil => intro vs; simp
  | cons a l ih =>
    intro vs
    rw [List.foldl_cons, ih, hstep, List.flatMap_cons, List.append_assoc]

theorem drawTextureStep_eq (w : World) (sel : List Pos) (vertices : List Vec3f) (p : Pos) :
    drawTextureStep w sel vertices p = vertices ++ texturePatchSegments w sel p := by
  have hN : ∀ vs : List Vec3f, (loopIndices w.land).foldl (drawNorthStep w p.1 p.2) vs =
      vs ++ textureSide w (textureHorizontalPoint w p.1 (p.2 + 1)
        (p.2 * textureSizeToLandSizeModifier w.land + textureSizeToLandSizeModifier w.land -
          landHeightsNudge w.land)) :=
    foldl_append_eq _ _ (fun vs i => by
      simp [drawNorthStep, textureHorizontalPoint, heightLift]) _
  have hS : ∀ vs : List Vec3f, (loopIndices w.land).foldl (drawSouthStep w p.1 p.2) vs =
      vs ++ textureSide w (textureHorizontalPoint w p.1 p.2
        (p.2 * textureSizeToLandSizeModifier w.land - landHeightsNudge w.land)) :=
    foldl_append_eq _ _ (fun vs i => by
      simp [drawSouthStep, textureHorizontalPoint, heightLift]) _
  have hE : ∀ vs : List Vec3f, (loopIndices w.land).foldl (drawEastStep w p.1 p.2) vs =
      vs ++ textureSide w (textureVerticalPoint w p.2 (p.1 + 1)
        (p.1 * textureSizeToLandSizeModifier w.land + textureSizeToLandSizeModifier w.land +
          landHeightsNudge w.land)) :=
    foldl_append_eq _ _ (fun vs i => by
      simp [drawEastStep, textureVerticalPoint, heightLift]) _
  have hW : ∀ vs : List Vec3f, (loopIndices w.land).foldl (drawWestStep w p.1 p.2) vs =
      vs ++ textureSide w (textureVerticalPoint w p.2 p.1
        (p.1 * textureSizeToLandSizeModifier w.land + landHeightsNudge w.land)) :=
    foldl_append_eq _ _ (fun vs i => by
      simp [drawWestStep, textureVerticalPoint, heightLift]) _
  unfold drawTextureStep texturePatchSegments
  simp only [hN, hS, hE, hW]
  by_cases h1 : (p.1, p.2 + 1) ∈ sel <;> by_cases h2 : (p.1, p.2 - 1) ∈ sel <;>
    by_cases h3 : (p.1 + 1, p.2) ∈ sel <;> by_cases h4 : (p.1 - 1, p.2) ∈ sel <;>
    simp [h1, h2, h3, h4]

theorem drawTextureSelection_eq (w : World) (sel : List Pos) (vertices : List Vec3f) :
    drawTextureSelection w sel vertices = vertices ++ textureCellBuffer w sel := by
  unfold drawTextureSelection textureCellBuffer
  cases sel with
  | nil => simp
  | cons p l =>
    have hne : (p :: l).isEmpty = false := rfl
    rw [if_pos hne, foldl_append_eq _ _ (drawTextureStep_eq w (p :: l)), List.flatMap]

theorem toFloat_zero : toFloat 0 = 0 := by
  simp [toFloat]

theorem length_loopIndices (land : Land) :
    (loopIndices land).length = (textureSizeToLandSizeModifier land).toNat := by
  simp [loopIndices]

theorem length_textureSide (w : World) (endpoint : Int → Vec3f) :
    (textureSide w endpoint).length = 2 * (textureSizeToLandSizeModifier w.land).toNat := by
  unfold textureSide
  rw [← length_loopIndices]
  induction loopIndices w.land with
  | nil => rfl
  | cons i l ih => simp [List.flatMap_cons, ih]; omega

theorem single_patch_buffer (w : World) (x y : Int) :
    drawTextureSelection w [(x, y)] [] =
      textureSide w (textureHorizontalPoint w x (y + 1)
        (y * textureSizeToLandSizeModifier w.land + textureSizeToLandSizeModifier w.land -
          landHeightsNudge w.land)) ++
      textureSide w (textureHorizontalPoint w x y
        (y * textureSizeToLandSizeModifier w.land - landHeightsNudge w.land)) ++
      textureSide w (textureVerticalPoint w y (x + 1)
        (x * textureSizeToLandSizeModifier w.land + textureSizeToLandSizeModifier w.land +
          landHeightsNudge w.land)) ++
      textureSide w (textureVerticalPoint w y x
        (x * textureSizeToLandSizeModifier w.land + landHeightsNudge w.land)) := by
  have hN : (x, y + 1) ∉ [(x, y)] := by simp
  have hS : (x, y - 1) ∉ [(x, y)] := by simp
  have hE : (x + 1, y) ∉ [(x, y)] := by simp
  have hW : (x - 1, y) ∉ [(x, y)] := by simp
  rw [drawTextureSelection_eq]
  simp only [textureCellBuffer, texturePatchSegments, List.map_cons, List.map_nil,
    List.flatten_cons, List.flatten_nil, if_neg hN, if_neg hS, if_neg hE, if_neg hW,
    List.nil_append, List.append_nil]

theorem single_patch_length (w : World) (x y : Int) :
    (drawTextureSelection w [(x, y)] []).length =
      8 * (textureSizeToLandSizeModifier w.land).toNat := by
  rw [single_patch_buffer]
  simp only [List.length_append, length_textureSide]
  omega

theorem single_patch_head (w : World) (x y : Int)
    (hfloat : toFloat (w.textureGlobalToWorldCoords x) = w.textureGlobalToWorldCoords x) :
    (drawTextureSelection w [(x, y)] []).head? =
      if textureSizeToLandSizeModifier w.land ≤ 0 then none
      else some
        ⟨floatAdd (w.textureGlobalToWorldCoords x) (floatOfInt (nudgeOffset w.land)),
          floatSub (w.textureGlobalToWorldCoords (y + 1)) (floatOfInt (nudgeOffset w.land)),
          floatOfInt (calculateLandHeight w
            (x * textureSizeToLandSizeModifier w.land + landHeightsNudge w.land)
            (y * textureSizeToLandSizeModifier w.land + textureSizeToLandSizeModifier w.land -
              landHeightsNudge w.land) + 2)⟩ := by
  rw [single_patch_buffer]
  by_cases hk : textureSizeToLandSizeModifier w.land ≤ 0
  · have h0 : (textureSizeToLandSizeModifier w.land).toNat = 0 := by omega
    simp [hk, textureSide, loopIndices, h0]
  · obtain ⟨n, hn⟩ : ∃ n, (textureSizeToLandSizeModifier w.land).toNat = n + 1 :=
      ⟨(textureSizeToLandSizeModifier w.land).toNat - 1, by omega⟩
    have h0 : floatAdd (w.textureGlobalToWorldCoords x) (floatOfInt 0) =
        w.textureGlobalToWorldCoords x := by
      simp [floatAdd, floatOfInt, toFloat_zero, hfloat]
    simp [hk, textureSide, loopIndices, hn, List.range'_succ, List.flatMap_cons,
      textureHorizontalPoint, heightLift, h0]

/-- C12: with `committed = [(x,y)]` and `k = (LAND_SIZE-1)/LAND_TEXTURE_SIZE ≥ 0`
the TextureCell buffer holds exactly `8*k` endpoints (`4*k` segments), and for
`k > 0` its first endpoint, the start of the north edge, has
`x = textureGlobalToWorld(x) + nudgeOffset` and
`y = textureGlobalToWorld(y+1) - nudgeOffset`.  (`hfloat`: the coordinate map
returns a `float`.) -/
theorem single_patch_four_k_segments (w : World) (x y : Int)
    (hk : 0 ≤ textureSizeToLandSizeModifier w.land)
    (hfloat : toFloat (w.textureGlobalToWorldCoords x) = w.textureGlobalToWorldCoords x) :
    ((drawTextureSelection w [(x, y)] []).length : Int) =
        8 * textureSizeToLandSizeModifier w.land ∧
    (drawTextureSelection w [(x, y)] []).head? =
      if textureSizeToLandSizeModifier w.land ≤ 0 then none
      else some
        ⟨floatAdd (w.textureGlobalToWorldCoords x) (floatOfInt (nudgeOffset w.land)),
          floatSub (w.textureGlobalToWorldCoords (y + 1)) (floatOfInt (nudgeOffset w.land)),
          floatOfInt (calculateLandHeight w
            (x * textureSizeToLandSizeModifier w.land + landHeightsNudge w.land)
            (y * textureSizeToLandSizeModifier w.land + textureSizeToLandSizeModifier w.land -
              landHeightsNudge w.land) + 2)⟩ := by
  refine ⟨?_, single_patch_head w x y hfloat⟩
  rw [single_patch_length]
  push_cast
  rw [Int.toNat_of_nonneg hk]

/-- The instance of C12 named by the specification: with `LAND_SIZE = 65` and
`LAND_TEXTURE_SIZE = 16` the modifier is 4 and a single patch gives 32
endpoints, that is 16 segments. -/
theorem single_patch_sixteen_segments (w : World) (x y : Int)
    (hL : w.land.LAND_SIZE = 65) (hT : w.land.LAND_TEXTURE_SIZE = 16) :
    textureSizeToLandSizeModifier w.land = 4 ∧
    (drawTextureSelection w [(x, y)] []).length = 32 := by
  have hk : textureSizeToLandSizeModifier w.land = 4 := by
    unfold textureSizeToLandSizeModifier
    rw [hL, hT]
    decide
  refine ⟨hk, ?_⟩
  rw [single_patch_length, hk]
  rfl

/-! ## Properties of both builders -/

theorem even_length_flatten {α : Type} (L : List (List α))
    (h : ∀ l ∈ L, Even l.length) : Even L.flatten.length := by
  induction L with
  | nil => simp
  | cons l L ih =>
    rw [List.flatten_cons, List.length_append]
    exact (h l (List.mem_cons_self _ _)).add (ih (fun l' hl' => h l' (List.mem_cons_of_mem _ hl')))

theorem even_length_vertexShapeSegments (w : World) (sel : List Pos) (p : Pos) :
    Even (vertexShapeSegments w sel p).length := by
  unfold vertexShapeSegments vertexSegment
  by_cases hn : (p.1, p.2 + 1) ∈ sel <;> by_cases he : (p.1 + 1, p.2) ∈ sel <;>
    simp [hn, he] <;> decide

theorem even_length_textureSide (w : World) (endpoint : Int → Vec3f) :
    Even (textureSide w endpoint).length := by
  rw [length_textureSide]
  exact even_two_mul _

theorem even_length_texturePatchSegments (w : World) (sel : List Pos) (p : Pos) :
    Even (texturePatchSegments w sel p).length := by
  unfold texturePatchSegments
  simp only [List.length_append]
  refine Even.add (Even.add (Even.add ?_ ?_) ?_) ?_ <;>
    · split
      · exact even_zero
      · exact even_length_textureSide w _

theorem update_eq (w : World) (t : TerrainSelectionType) (sel : List Pos) :
    update w t sel =
      match t with
      | .Texture => textureCellBuffer w sel
      | .Shape => vertexShapeBuffer w sel := by
  cases t with
  | Texture => simp [update, drawTextureSelection_eq]
  | Shape => simp [update, drawShapeSelection_eq]

/-- C13: for every committed list, every world (and so every height function)
and both selection types, the number of points pushed by the builder is a
multiple of 2, and it is 0 for the empty list. -/
theorem endpoint_buffer_length_even (w : World) (t : TerrainSelectionType)
    (committed : List Pos) :
    Even (update w t committed).length ∧ (update w t []).length = 0 := by
  constructor
  · rw [update_eq]
    cases t with
    | Texture =>
      exact even_length_flatten _ (fun l hl => by
        obtain ⟨p, _, rfl⟩ := List.mem_map.1 hl
        exact even_length_texturePatchSegments w committed p)
    | Shape =>
      exact even_length_flatten _ (fun l hl => by
        obtain ⟨p, _, rfl⟩ := List.mem_map.1 hl
        exact even_length_vertexShapeSegments w committed p)
  · cases t <;> rfl

/-! ## The height sampler -/

/-- The body of `calculateLandHeight`, with the cell and in-cell indices named. -/
theorem calculateLandHeight_eq (w : World) (x y : Int) :
    calculateLandHeight w x y =
      truncToInt
        (match w.getCell (cellIndex w.land x) (cellIndex w.land y) with
          | some cell =>
            cell.getSumOfAlteredAndTrueHeight (cellIndex w.land x) (cellIndex w.land y)
              (localIndex w.land x) (localIndex w.land y)
          | none => 0) := rfl

theorem truncToInt_intCast (z : Int) : truncToInt (z : ℚ) = z := by
  unfold truncToInt
  split <;> simp

theorem calculateLandHeight_of_getCell_none (w : World) (x y : Int)
    (h : w.getCell (cellIndex w.land x) (cellIndex w.land y) = none) :
    calculateLandHeight w x y = 0 := by
  rw [calculateLandHeight_eq, h]
  exact_mod_cast truncToInt_intCast 0

theorem calculateLandHeight_of_getCell_some (w : World) (x y : Int) (cell : Cell)
    (h : w.getCell (cellIndex w.land x) (cellIndex w.land y) = some cell) :
    calculateLandHeight w x y =
      truncToInt (cell.getSumOfAlteredAndTrueHeight (cellIndex w.land x) (cellIndex w.land y)
        (localIndex w.land x) (localIndex w.land y)) := by
  rw [calculateLandHeight_eq, h]

theorem mem_textureSide {w : World} {endpoint : Int → Vec3f} {v : Vec3f}
    (hv : v ∈ textureSide w endpoint) : ∃ j, v = endpoint j := by
  unfold textureSide at hv
  rw [List.mem_flatMap] at hv
  obtain ⟨i, _, hi⟩ := hv
  simp only [List.mem_cons, List.mem_singleton, List.not_mem_nil, or_false] at hi
  rcases hi with rfl | rfl
  · exact ⟨_, rfl⟩
  · exact ⟨_, rfl⟩

/-- Every endpoint of either buffer has `z = calculateLandHeight(a, b) + 2` for
some global vertex `(a, b)`. -/
theorem z_of_mem_update (w : World) (t : TerrainSelectionType) (sel : List Pos) (v : Vec3f)
    (hv : v ∈ update w t sel) :
    ∃ a b, v.z = floatOfInt (calculateLandHeight w a b + 2) := by
  rw [update_eq] at hv
  cases t with
  | Shape =>
    simp only [vertexShapeBuffer, List.mem_flatten, List.mem_map] at hv
    obtain ⟨l, ⟨p, _, rfl⟩, hv⟩ := hv
    have key : ∃ q : Pos, v = vertexEndpoint w q := by
      unfold vertexShapeSegments vertexSegment at hv
      simp only [List.mem_append, List.mem_cons, List.mem_singleton, List.not_mem_nil,
        or_false] at hv
      rcases hv with ((h | h) | h) | h
      · rcases h with rfl | rfl <;> exact ⟨_, rfl⟩
      · rcases h with rfl | rfl <;> exact ⟨_, rfl⟩
      · split at h
        · simp at h
        · simp only [List.mem_cons, List.mem_singleton, List.not_mem_nil, or_false] at h
          rcases h with rfl | rfl <;> exact ⟨_, rfl⟩
      · split at h
        · simp at h
        · simp only [List.mem_cons, List.mem_singleton, List.not_mem_nil, or_false] at h
          rcases h with rfl | rfl <;> exact ⟨_, rfl⟩
    obtain ⟨q, rfl⟩ := key
    exact ⟨q.1, q.2, rfl⟩
  | Texture =>
    simp only [textureCellBuffer, List.mem_flatten, List.mem_map] at hv
    obtain ⟨l, ⟨p, _, rfl⟩, hv⟩ := hv
    unfold texturePatchSegments at hv
    simp only [List.mem_append] at hv
    rcases hv with ((h | h) | h) | h <;>
      · split at h
        · simp at h
        · obtain ⟨j, rfl⟩ := mem_textureSide h
          exact ⟨_, _, rfl⟩

/-- C14: when no cell is resolved at the decomposed cell coordinate of
`(x, y)`, `calculateLandHeight(x, y)` returns 0; and when the world resolves no
cell at all, every endpoint emitted in either mode has `z = 2`. -/
theorem missing_cells_collapse_to_zero (w : World) :
    (∀ x y : Int, w.getCell (cellIndex w.land x) (cellIndex w.land y) = none →
      calculateLandHeight w x y = 0) ∧
    ((∀ cx cy : Int, w.getCell cx cy = none) →
      ∀ (t : TerrainSelectionType) (committed : List Pos) (v : Vec3f),
        v ∈ update w t committed → v.z = 2) := by
  refine ⟨fun x y h => calculateLandHeight_of_getCell_none w x y h, ?_⟩
  intro hnone t committed v hv
  obtain ⟨a, b, hz⟩ := z_of_mem_update w t committed v hv
  rw [hz, calculateLandHeight_of_getCell_none w a b (hnone _ _)]
  simpa [floatOfInt] using toFloat_intCast 2 (by decide)

theorem missing_cells_collapse_to_zero_witness :
    calculateLandHeight emptyWorld 70 (-3) = 0 ∧
    ∀ v ∈ update emptyWorld TerrainSelectionType.Texture [(0, 0), (1, 0)], v.z = 2 :=
  ⟨(missing_cells_collapse_to_zero emptyWorld).1 70 (-3) rfl,
    fun v hv => (missing_cells_collapse_to_zero emptyWorld).2 (fun _ _ => rfl) _ _ v hv⟩

theorem truncToInt_one_half : truncToInt (1 / 2) = 0 := by
  unfold truncToInt
  norm_num

theorem truncToInt_neg_one_half : truncToInt (-1 / 2) = 0 := by
  unfold truncToInt
  norm_num

/-- C19, as stated, fails: in a world whose cells report the height `1/2` (or
`-1/2`) everywhere, `calculateLandHeight(0, 0)` is `0`, not the cell's value. -/
theorem sampled_height_loses_fraction :
    calculateLandHeight (constantWorld (1 / 2)) 0 0 = 0 ∧
    ((calculateLandHeight (constantWorld (1 / 2)) 0 0 : Int) : ℚ) ≠ 1 / 2 ∧
    calculateLandHeight (constantWorld (-1 / 2)) 0 0 = 0 ∧
    ((calculateLandHeight (constantWorld (-1 / 2)) 0 0 : Int) : ℚ) ≠ -1 / 2 := by
  have h1 : calculateLandHeight (constantWorld (1 / 2)) 0 0 = 0 := by
    rw [calculateLandHeight_of_getCell_some _ 0 0 ⟨fun _ _ _ _ => 1 / 2⟩ rfl]
    exact truncToInt_one_half
  have h2 : calculateLandHeight (constantWorld (-1 / 2)) 0 0 = 0 := by
    rw [calculateLandHeight_of_getCell_some _ 0 0 ⟨fun _ _ _ _ => -1 / 2⟩ rfl]
    exact truncToInt_neg_one_half
  refine ⟨h1, ?_, h2, ?_⟩
  · rw [h1]; norm_num
  · rw [h2]; norm_num

theorem abs_sub_truncToInt_lt_one (q : ℚ) : |q - truncToInt q| < 1 := by
  unfold truncToInt
  split
  · rw [abs_lt]
    constructor
    · have := Int.floor_le q
      linarith
    · have := Int.lt_floor_add_one q
      linarith
  · rw [abs_lt]
    constructor
    · have := Int.ceil_lt_add_one q
      linarith
    · have := Int.le_ceil q
      linarith

/-- C19, amended: when the cell of `(x, y)` is resolved, `calculateLandHeight`
returns the cell's `float` value converted to the `int` return type, that is
truncated toward zero: an integral value is returned unchanged, any other value
loses its fractional part (the result differs from it by less than 1), and the
emitted `z` is that `int` plus 2. -/
theorem sampled_height_is_truncated (w : World) (x y : Int) (cell : Cell)
    (hcell : w.getCell (cellIndex w.land x) (cellIndex w.land y) = some cell) :
    calculateLandHeight w x y =
        truncToInt (cell.getSumOfAlteredAndTrueHeight (cellIndex w.land x)
          (cellIndex w.land y) (localIndex w.land x) (localIndex w.land y)) ∧
    |cell.getSumOfAlteredAndTrueHeight (cellIndex w.land x) (cellIndex w.land y)
        (localIndex w.land x) (localIndex w.land y) - calculateLandHeight w x y| < 1 ∧
    (∀ n : Int, cell.getSumOfAlteredAndTrueHeight (cellIndex w.land x) (cellIndex w.land y)
        (localIndex w.land x) (localIndex w.land y) = n → calculateLandHeight w x y = n) ∧
    (vertexEndpoint w (x, y)).z =
      floatOfInt (truncToInt (cell.getSumOfAlteredAndTrueHeight (cellIndex w.land x)
          (cellIndex w.land y) (localIndex w.land x) (localIndex w.land y)) + 2) := by
  have h := calculateLandHeight_of_getCell_some w x y cell hcell
  refine ⟨h, ?_, ?_, ?_⟩
  · rw [h]; exact abs_sub_truncToInt_lt_one _
  · intro n hn
    rw [h, hn, truncToInt_intCast]
  · show toFloat ((calculateLandHeight w x y + heightLift : Int) : ℚ) = _
    rw [h]
    rfl

theorem sampled_height_is_truncated_witness :
    calculateLandHeight (constantWorld (15 / 2)) 3 (-4) = truncToInt (15 / 2) ∧
    |(15 / 2 : ℚ) - calculateLandHeight (constantWorld (15 / 2)) 3 (-4)| < 1 ∧
    (∀ n : Int, (15 / 2 : ℚ) = n → calculateLandHeight (constantWorld (15 / 2)) 3 (-4) = n) ∧
    (vertexEndpoint (constantWorld (15 / 2)) (3, -4)).z =
      floatOfInt (truncToInt (15 / 2) + 2) :=
  sampled_height_is_truncated (constantWorld (15 / 2)) 3 (-4) ⟨fun _ _ _ _ => 15 / 2⟩ rfl

/-! ## The height-index bias of TextureCell mode -/

/-- C16, as stated, fails: for `LAND_SIZE = 65` the program's `landHeightsNudge`
is 1 with `REAL_SIZE = 8192` and 0 with `REAL_SIZE = 4096`, where the formula of
the specification gives 2 and 1. -/
theorem landHeightsNudge_differs_from_spec :
    landHeightsNudge ⟨8192, 65, 16⟩ = 1 ∧ specLandHeightsNudge ⟨8192, 65, 16⟩ = 2 ∧
    landHeightsNudge ⟨4096, 65, 16⟩ = 0 ∧ specLandHeightsNudge ⟨4096, 65, 16⟩ = 1 := by
  decide

/-- Floor of a quotient of integers with a positive divisor is the integer
(floor) division. -/
theorem floor_intCast_div_pos (a b : Int) (hb : 0 < b) : ⌊(a : ℚ) / (b : ℚ)⌋ = a / b := by
  obtain ⟨d, rfl⟩ := Int.eq_ofNat_of_zero_le (le_of_lt hb)
  exact_mod_cast Rat.floor_intCast_div_natCast a d

/-- C16, amended: for positive land constants the program's `landHeightsNudge`
is `floor(floor(REAL_SIZE / LAND_SIZE) / (LAND_SIZE - 1))`: the inner divisor
is `LAND_SIZE`, not `LAND_SIZE - 1`. -/
theorem landHeightsNudge_formula (land : Land) (hR : 0 < land.REAL_SIZE)
    (hL : 1 < land.LAND_SIZE) :
    landHeightsNudge land = (land.REAL_SIZE / land.LAND_SIZE) / (land.LAND_SIZE - 1) ∧
    landHeightsNudge land =
      ⌊((⌊(land.REAL_SIZE : ℚ) / land.LAND_SIZE⌋ : Int) : ℚ) / ((land.LAND_SIZE - 1 : Int) : ℚ)⌋ := by
  have h1 : landHeightsNudge land =
      (land.REAL_SIZE / land.LAND_SIZE) / (land.LAND_SIZE - 1) := by
    unfold landHeightsNudge
    rw [Int.tdiv_eq_ediv (le_of_lt hR) (by omega), Int.tdiv_eq_ediv _ (by omega)]
    exact Int.ediv_nonneg (le_of_lt hR) (by omega)
  refine ⟨h1, ?_⟩
  rw [h1, floor_intCast_div_pos _ _ (by omega), floor_intCast_div_pos _ _ (by omega)]

theorem landHeightsNudge_formula_witness :
    landHeightsNudge ⟨8192, 65, 16⟩ = ((8192 : Int) / 65) / (65 - 1) ∧
    landHeightsNudge ⟨8192, 65, 16⟩ =
      ⌊((⌊((8192 : Int) : ℚ) / (65 : Int)⌋ : Int) : ℚ) / (((65 : Int) - 1 : Int) : ℚ)⌋ :=
  landHeightsNudge_formula ⟨8192, 65, 16⟩ (by decide) (by decide)

/-! ## Order of the selection -/

theorem segmentsOf_append :
    ∀ (a b : List Vec3f), Even a.length → segmentsOf (a ++ b) = segmentsOf a ++ segmentsOf b
  | [], _, _ => rfl
  | [_], _, h => by
    rw [List.length_singleton] at h
    exact absurd h (by decide)
  | x :: y :: a, b, h => by
    have h' : Even a.length := by
      have : (x :: y :: a).length = a.length + 2 := rfl
      rw [this] at h
      exact (Nat.even_add.1 h).2 (by decide)
    simp [segmentsOf, segmentsOf_append a b h']

theorem segmentsOf_flatten (L : List (List Vec3f)) (h : ∀ l ∈ L, Even l.length) :
    segmentsOf L.flatten = (L.map segmentsOf).flatten := by
  induction L with
  | nil => rfl
  | cons l L ih =>
    rw [List.flatten_cons, segmentsOf_append _ _ (h l (List.mem_cons_self _ _)),
      ih (fun l' hl' => h l' (List.mem_cons_of_mem _ hl')), List.map_cons, List.flatten_cons]

theorem even_length_positionBlock (w : World) (t : TerrainSelectionType) (sel : List Pos)
    (p : Pos) : Even (positionBlock w t sel p).length := by
  cases t with
  | Texture => exact even_length_texturePatchSegments w sel p
  | Shape => exact even_length_vertexShapeSegments w sel p

theorem update_eq_blocks (w : World) (t : TerrainSelectionType) (sel : List Pos) :
    update w t sel = (sel.map (positionBlock w t sel)).flatten := by
  rw [update_eq]
  cases t <;> rfl

theorem positionBlock_congr (w : World) (t : TerrainSelectionType) {sel sel' : List Pos}
    (h : ∀ q, q ∈ sel ↔ q ∈ sel') (p : Pos) :
    positionBlock w t sel p = positionBlock w t sel' p := by
  cases t with
  | Texture => simp only [positionBlock, texturePatchSegments, h]
  | Shape => simp only [positionBlock, vertexShapeSegments, h]

/-- C17: for two committed lists that are permutations of each other, in each
mode the block of a position is the same for both lists (it depends on the
position and on membership only), the buffer of the second list is the
concatenation of the blocks of the first in the second list's order, and the two
buffers have the same segments up to order. -/
theorem builder_treats_selection_as_unordered (w : World) (t : TerrainSelectionType)
    (committed committed' : List Pos) (hperm : committed.Perm committed') :
    (∀ p, positionBlock w t committed p = positionBlock w t committed' p) ∧
    update w t committed = (committed.map (positionBlock w t committed)).flatten ∧
    update w t committed' = (committed'.map (positionBlock w t committed)).flatten ∧
    (segmentsOf (update w t committed)).Perm (segmentsOf (update w t committed')) := by
  have hblock : ∀ p, positionBlock w t committed p = positionBlock w t committed' p :=
    positionBlock_congr w t (fun q => hperm.mem_iff)
  have hfun : positionBlock w t committed = positionBlock w t committed' := funext hblock
  refine ⟨hblock, update_eq_blocks w t committed, ?_, ?_⟩
  · rw [hfun]; exact update_eq_blocks w t committed'
  · rw [update_eq_blocks w t committed, update_eq_blocks w t committed', ← hfun,
      segmentsOf_flatten _ (fun l hl => by
        obtain ⟨p, _, rfl⟩ := List.mem_map.1 hl
        exact even_length_positionBlock w t committed p),
      segmentsOf_flatten _ (fun l hl => by
        obtain ⟨p, _, rfl⟩ := List.mem_map.1 hl
        exact even_length_positionBlock w t committed p)]
    exact ((hperm.map _).map _).flatten

theorem builder_treats_selection_as_unordered_witness :
    (∀ p, positionBlock emptyWorld TerrainSelectionType.Shape [(0, 0), (1, 0), (5, 5)] p =
      positionBlock emptyWorld TerrainSelectionType.Shape [(5, 5), (0, 0), (1, 0)] p) ∧
    update emptyWorld TerrainSelectionType.Shape [(0, 0), (1, 0), (5, 5)] =
      (([(0, 0), (1, 0), (5, 5)] : List Pos).map
        (positionBlock emptyWorld TerrainSelectionType.Shape [(0, 0), (1, 0), (5, 5)])).flatten ∧
    update emptyWorld TerrainSelectionType.Shape [(5, 5), (0, 0), (1, 0)] =
      (([(5, 5), (0, 0), (1, 0)] : List Pos).map
        (positionBlock emptyWorld TerrainSelectionType.Shape [(0, 0), (1, 0), (5, 5)])).flatten ∧
    (segmentsOf (update emptyWorld TerrainSelectionType.Shape [(0, 0), (1, 0), (5, 5)])).Perm
      (segmentsOf (update emptyWorld TerrainSelectionType.Shape [(5, 5), (0, 0), (1, 0)])) :=
  builder_treats_selection_as_unordered emptyWorld TerrainSelectionType.Shape _ _
    (by decide)

/-! ## The drag memo -/

/-- C18, as stated, fails: after `toggleSelect([(1,1)], true)` and
`toggleSelect([(1,1),(1,2)], true)` on the initial state, `(1,1)` occurs twice
in `mTemporarySelection`. -/
theorem drag_visited_has_duplicates :
    (toggleSelect (toggleSelect init [(1, 1)] true) [(1, 1), (1, 2)] true).mTemporarySelection
      = [(1, 1), (1, 1), (1, 2)] ∧
    ¬ (toggleSelect (toggleSelect init [(1, 1)] true) [(1, 1), (1, 2)]
        true).mTemporarySelection.Nodup := by
  decide

/-- C18, amended: starting from an empty `mTemporarySelection`, after any
sequence of calls `toggleSelect(L, true)` the memo is the concatenation of the
presented lists: every presented position is appended, also one that is already
in the memo (such a position is not flipped again), so a position is in the memo
iff it was presented, as often as it was presented. -/
theorem drag_visited_is_concatenation (s : TerrainSelection) (Ls : List (List Pos))
    (htmp : s.mTemporarySelection = []) :
    (Ls.foldl (fun st L => toggleSelect st L true) s).mTemporarySelection = Ls.flatten ∧
    (∀ p, p ∈ (Ls.foldl (fun st L => toggleSelect st L true) s).mTemporarySelection ↔
      ∃ L ∈ Ls, p ∈ L) ∧
    (∀ p, (Ls.foldl (fun st L => toggleSelect st L true) s).mTemporarySelection.count p =
      (Ls.map (List.count p)).sum) := by
  have h : (Ls.foldl (fun st L => toggleSelect st L true) s).mTemporarySelection =
      Ls.flatten := by
    rw [foldl_toggleSelect_true, temp_foldl_dragStep, htmp, List.nil_append]
  refine ⟨h, fun p => ?_, fun p => ?_⟩
  · rw [h, List.mem_flatten]
  · rw [h, List.count_flatten]

theorem drag_visited_is_concatenation_witness :
    ([[(1, 1)], [(1, 1), (1, 2)]].foldl (fun st L => toggleSelect st L true)
        init).mTemporarySelection = [[(1, 1)], [(1, 1), (1, 2)]].flatten ∧
    (∀ p, p ∈ ([[(1, 1)], [(1, 1), (1, 2)]].foldl (fun st L => toggleSelect st L true)
        init).mTemporarySelection ↔ ∃ L ∈ ([[(1, 1)], [(1, 1), (1, 2)]] : List (List Pos)), p ∈ L) ∧
    (∀ p, ([[(1, 1)], [(1, 1), (1, 2)]].foldl (fun st L => toggleSelect st L true)
        init).mTemporarySelection.count p =
      (([[(1, 1)], [(1, 1), (1, 2)]] : List (List Pos)).map (List.count p)).sum) :=
  drag_visited_is_concatenation init _ rfl

/-! ## Rounding error of `toFloat` and the cell decomposition -/

theorem abs_roundTiesEven_sub_le (r : ℚ) : |(roundTiesEven r : ℚ) - r| ≤ 1 / 2 := by
  have h1 := Int.floor_le r
  have h2 := Int.lt_floor_add_one r
  unfold roundTiesEven
  simp only []
  split_ifs with ha hb hc
  · rw [abs_le]; constructor <;> linarith
  · rw [abs_le]; push_cast; constructor <;> linarith
  · rw [abs_le]; constructor <;> linarith
  · rw [abs_le]; push_cast; constructor <;> linarith

theorem int_log_two_eq {r : ℚ} {e : Int} (h1 : (2 : ℚ) ^ e ≤ r) (h2 : r < 2 ^ (e + 1)) :
    Int.log 2 r = e := by
  have hr : 0 < r := lt_of_lt_of_le (zpow_pos (by norm_num) e) h1
  have h1' : ((2 : ℕ) : ℚ) ^ e ≤ r := by exact_mod_cast h1
  have h2' : r < ((2 : ℕ) : ℚ) ^ (e + 1) := by exact_mod_cast h2
  have ha := (Int.zpow_le_iff_le_log (by norm_num) hr).1 h1'
  have hb := (Int.lt_zpow_iff_log_lt (by norm_num) hr).1 h2'
  omega

theorem toFloat_eq_of_binade {q : ℚ} {e : Int} (h1 : (2 : ℚ) ^ e ≤ |q|)
    (h2 : |q| < 2 ^ (e + 1)) :
    toFloat q = roundTiesEven (q / 2 ^ (e - 23)) * 2 ^ (e - 23) := by
  have hq : q ≠ 0 := by
    intro h
    rw [h, abs_zero] at h1
    exact absurd h1 (not_le.2 (zpow_pos (by norm_num) e))
  unfold toFloat
  rw [if_neg hq, int_log_two_eq h1 h2]

theorem abs_toFloat_sub_le (q : ℚ) : |toFloat q - q| ≤ |q| * 2 ^ (-24 : Int) := by
  by_cases hq : q = 0
  · subst hq; simp [toFloat]
  have hpos : (0 : ℚ) < |q| := abs_pos.mpr hq
  have hlog : ((2 : ℕ) : ℚ) ^ Int.log 2 |q| ≤ |q| := Int.zpow_log_le_self (by norm_num) hpos
  have hlog' : (2 : ℚ) ^ Int.log 2 |q| ≤ |q| := by exact_mod_cast hlog
  have hulp : (0 : ℚ) < 2 ^ (Int.log 2 |q| - 23) := zpow_pos (by norm_num) _
  unfold toFloat
  rw [if_neg hq]
  simp only []
  have hfac : (roundTiesEven (q / 2 ^ (Int.log 2 |q| - 23)) : ℚ) * 2 ^ (Int.log 2 |q| - 23) - q =
      ((roundTiesEven (q / 2 ^ (Int.log 2 |q| - 23)) : ℚ) - q / 2 ^ (Int.log 2 |q| - 23)) *
        2 ^ (Int.log 2 |q| - 23) := by
    field_simp
  rw [hfac, abs_mul, abs_of_pos hulp]
  have hr := abs_roundTiesEven_sub_le (q / 2 ^ (Int.log 2 |q| - 23))
  have hsplit : (2 : ℚ) ^ (Int.log 2 |q| - 23) = 2 ^ Int.log 2 |q| * 2 ^ (-23 : Int) := by
    rw [← zpow_add₀ (by norm_num)]; rfl
  calc |(roundTiesEven (q / 2 ^ (Int.log 2 |q| - 23)) : ℚ) - q / 2 ^ (Int.log 2 |q| - 23)| *
        2 ^ (Int.log 2 |q| - 23)
      ≤ 1 / 2 * 2 ^ (Int.log 2 |q| - 23) := mul_le_mul_of_nonneg_right hr (le_of_lt hulp)
    _ = 2 ^ Int.log 2 |q| * 2 ^ (-24 : Int) := by rw [hsplit]; norm_num; ring
    _ ≤ |q| * 2 ^ (-24 : Int) := mul_le_mul_of_nonneg_right hlog' (by positivity)

theorem floor_toFloat_div (x n : Int) (hx : |x| < 2 ^ 24) (hn : 0 < n) :
    ⌊toFloat ((x : ℚ) / (n : ℚ))⌋ = x / n := by
  have hnq : (0 : ℚ) < (n : ℚ) := by exact_mod_cast hn
  have hlo : (x / n) * n ≤ x := Int.ediv_mul_le x (ne_of_gt hn)
  have hhi : x < (x / n + 1) * n := Int.lt_ediv_add_one_mul_self x hn
  have hxq : |(x : ℚ)| < 2 ^ 24 := by exact_mod_cast hx
  have herr := abs_toFloat_sub_le ((x : ℚ) / n)
  have hbound : |(x : ℚ) / n| * 2 ^ (-24 : Int) < 1 / n := by
    rw [abs_div, abs_of_pos hnq, div_mul_eq_mul_div, div_lt_div_iff_of_pos_right hnq]
    have h24 : (2 : ℚ) ^ (-24 : Int) = 1 / 2 ^ 24 := by norm_num
    rw [h24, mul_one_div, div_lt_one (by positivity)]
    exact hxq
  have herr' := abs_le.1 herr
  rw [Int.floor_eq_iff]
  constructor
  · by_cases hex : x = (x / n) * n
    · have hq : (x : ℚ) / n = ((x / n : Int) : ℚ) := by
        rw [div_eq_iff (ne_of_gt hnq)]
        exact_mod_cast hex
      have hm : |x / n| < 2 ^ 24 := by
        have h1 : |x / n| ≤ |x| := by
          have : |x| = |x / n| * |n| := by
            conv_lhs => rw [hex]
            rw [abs_mul]
          have hn1 : 1 ≤ |n| := by rw [abs_of_pos hn]; omega
          nlinarith [abs_nonneg (x / n)]
        omega
      rw [hq, toFloat_intCast _ hm]
    · have hx1 : (x / n) * n + 1 ≤ x := by omega
      have hq : ((x / n : Int) : ℚ) ≤ (x : ℚ) / n - 1 / n := by
        rw [← sub_div, le_div_iff₀ hnq]
        exact_mod_cast (by omega : (x / n) * n ≤ x - 1)
      linarith [herr'.1]
  · have hq : (x : ℚ) / n + 1 / n ≤ ((x / n : Int) : ℚ) + 1 := by
      rw [← add_div, div_le_iff₀ hnq]
      exact_mod_cast (by omega : x + 1 ≤ (x / n + 1) * n)
    linarith [herr'.2]

theorem cellIndex_eq_ediv (land : Land) (g : Int) (hL : 1 < land.LAND_SIZE)
    (hL' : land.LAND_SIZE - 1 < 2 ^ 24) (hg : |g| < 2 ^ 24) :
    cellIndex land g = g / (land.LAND_SIZE - 1) := by
  have hn : |land.LAND_SIZE - 1| < 2 ^ 24 := by
    rw [abs_of_pos (by omega)]; exact hL'
  unfold cellIndex
  rw [toFloat_intCast g hg, toFloat_intCast _ hn]
  exact floor_toFloat_div g _ hg (by omega)

theorem toFloat_16777279 : toFloat (16777279 : ℚ) = 16777280 := by
  have h := @toFloat_eq_of_binade (16777279 : ℚ) 24 (by norm_num [abs_of_pos])
    (by norm_num [abs_of_pos])
  rw [h]
  have hr : roundTiesEven ((16777279 : ℚ) / 2 ^ ((24 : Int) - 23)) = 8388640 := by
    unfold roundTiesEven
    norm_num
  rw [hr]
  norm_num

theorem cellIndex_16777279 : cellIndex emptyWorld.land 16777279 = 262145 := by
  have h64 : toFloat (((65 : Int) - 1 : Int) : ℚ) = 64 := by
    have := toFloat_intCast 64 (by decide)
    simpa using this
  have hq : toFloat ((262145 : Int) : ℚ) = 262145 := by
    simpa using toFloat_intCast 262145 (by decide)
  show ⌊toFloat (toFloat ((16777279 : Int) : ℚ) / toFloat (((65 : Int) - 1 : Int) : ℚ))⌋ = 262145
  rw [h64]
  have h1 : toFloat ((16777279 : Int) : ℚ) = 16777280 := by
    simpa using toFloat_16777279
  rw [h1]
  have h2 : (16777280 : ℚ) / 64 = ((262145 : Int) : ℚ) := by norm_num
  rw [h2, hq]
  simp

/-- C15, as stated, fails: with `LAND_SIZE = 65` the global coordinate
`16777279 = 2^24 + 63` is converted to the `float` `16777280`, so the cell index
is `262145` where the floor of `16777279 / 64` is `262144`, and the in-cell
index is `-1`. -/
theorem height_decomposition_fails_beyond_float_precision :
    cellIndex emptyWorld.land 16777279 = 262145 ∧
    ⌊(16777279 : ℚ) / ((emptyWorld.land.LAND_SIZE - 1 : Int) : ℚ)⌋ = 262144 ∧
    localIndex emptyWorld.land 16777279 = -1 := by
  refine ⟨cellIndex_16777279, ?_, ?_⟩
  · show ⌊(16777279 : ℚ) / (((65 : Int) - 1 : Int) : ℚ)⌋ = 262144
    norm_num
  · unfold localIndex
    rw [cellIndex_16777279]
    decide

/-- C15, amended: for `1 < LAND_SIZE ≤ 2^24` and global coordinates below `2^24`
in absolute value (negative ones included), where the conversion to `float` is
exact, `calculateLandHeight` computes on each axis
`cell = floor(g / (LAND_SIZE-1))` and `local = g - cell*(LAND_SIZE-1)`, with
`0 ≤ local < LAND_SIZE-1` and `cell*(LAND_SIZE-1) + local = g`, and queries the
world with these indices. -/
theorem height_sample_decomposition (w : World) (x y : Int)
    (hL : 1 < w.land.LAND_SIZE) (hL' : w.land.LAND_SIZE - 1 < 2 ^ 24)
    (hx : |x| < 2 ^ 24) (hy : |y| < 2 ^ 24) :
    (cellIndex w.land x = ⌊(x : ℚ) / ((w.land.LAND_SIZE - 1 : Int) : ℚ)⌋ ∧
      0 ≤ localIndex w.land x ∧ localIndex w.land x < w.land.LAND_SIZE - 1 ∧
      cellIndex w.land x * (w.land.LAND_SIZE - 1) + localIndex w.land x = x) ∧
    (cellIndex w.land y = ⌊(y : ℚ) / ((w.land.LAND_SIZE - 1 : Int) : ℚ)⌋ ∧
      0 ≤ localIndex w.land y ∧ localIndex w.land y < w.land.LAND_SIZE - 1 ∧
      cellIndex w.land y * (w.land.LAND_SIZE - 1) + localIndex w.land y = y) ∧
    calculateLandHeight w x y =
      truncToInt
        (match w.getCell (x / (w.land.LAND_SIZE - 1)) (y / (w.land.LAND_SIZE - 1)) with
          | some cell =>
            cell.getSumOfAlteredAndTrueHeight (x / (w.land.LAND_SIZE - 1))
              (y / (w.land.LAND_SIZE - 1)) (x % (w.land.LAND_SIZE - 1))
              (y % (w.land.LAND_SIZE - 1))
          | none => 0) := by
  have hn : 0 < w.land.LAND_SIZE - 1 := by omega
  have key : ∀ g : Int, |g| < 2 ^ 24 →
      cellIndex w.land g = g / (w.land.LAND_SIZE - 1) ∧
      localIndex w.land g = g % (w.land.LAND_SIZE - 1) := by
    intro g hg
    have hc := cellIndex_eq_ediv w.land g hL hL' hg
    refine ⟨hc, ?_⟩
    unfold localIndex
    rw [hc, Int.emod_def, mul_comm]
  have axis : ∀ g : Int, |g| < 2 ^ 24 →
      cellIndex w.land g = ⌊(g : ℚ) / ((w.land.LAND_SIZE - 1 : Int) : ℚ)⌋ ∧
      0 ≤ localIndex w.land g ∧ localIndex w.land g < w.land.LAND_SIZE - 1 ∧
      cellIndex w.land g * (w.land.LAND_SIZE - 1) + localIndex w.land g = g := by
    intro g hg
    obtain ⟨hc, hl⟩ := key g hg
    refine ⟨?_, ?_, ?_, ?_⟩
    · rw [hc, floor_intCast_div_pos _ _ hn]
    · rw [hl]; exact Int.emod_nonneg _ (ne_of_gt hn)
    · rw [hl]; exact Int.emod_lt_of_pos _ hn
    · show cellIndex w.land g * (w.land.LAND_SIZE - 1) +
          (g - cellIndex w.land g * (w.land.LAND_SIZE - 1)) = g
      ring
  refine ⟨axis x hx, axis y hy, ?_⟩
  rw [calculateLandHeight_eq, (key x hx).1, (key y hy).1, (key x hx).2, (key y hy).2]

theorem height_sample_decomposition_witness :
    cellIndex emptyWorld.land (-1) = -1 ∧ localIndex emptyWorld.land (-1) = 63 := by
  have h := height_sample_decomposition emptyWorld (-1) 100 (by decide) (by decide)
    (by decide) (by decide)
  have hc : cellIndex emptyWorld.land (-1) = -1 := by
    rw [h.1.1]
    show ⌊((-1 : Int) : ℚ) / (((65 : Int) - 1 : Int) : ℚ)⌋ = -1
    norm_num
  refine ⟨hc, ?_⟩
  unfold localIndex
  rw [hc]
  decide

/-! ## VertexShape mode draws every touched lattice edge once -/

theorem segmentsOf_vertexShapeSegments (w : World) (sel : List Pos) (p : Pos) :
    segmentsOf (vertexShapeSegments w sel p) =
      (shapeLatticeSegments sel p).map
        (fun s => (vertexEndpoint w s.1, vertexEndpoint w s.2)) := by
  unfold vertexShapeSegments shapeLatticeSegments vertexSegment
  by_cases hn : (p.1, p.2 + 1) ∈ sel <;> by_cases he : (p.1 + 1, p.2) ∈ sel <;>
    simp [hn, he, segmentsOf]

theorem segmentsOf_vertexShapeBuffer (w : World) (sel : List Pos) :
    segmentsOf (vertexShapeBuffer w sel) =
      (shapeLattice sel).map (fun s => (vertexEndpoint w s.1, vertexEndpoint w s.2)) := by
  unfold vertexShapeBuffer shapeLattice
  rw [segmentsOf_flatten _ (fun l hl => by
    obtain ⟨p, _, rfl⟩ := List.mem_map.1 hl
    exact even_length_vertexShapeSegments w sel p)]
  rw [List.map_flatten, List.map_map, List.map_map]
  congr 1
  apply List.map_congr_left
  intro p _
  exact segmentsOf_vertexShapeSegments w sel p

theorem sum_map_eq_of_support (l : List Pos) (hnd : l.Nodup) (f : Pos → Nat) (a b : Pos)
    (hab : a ≠ b) (hf : ∀ p, p ≠ a → p ≠ b → f p = 0) :
    (l.map f).sum = (if a ∈ l then f a else 0) + (if b ∈ l then f b else 0) := by
  induction l with
  | nil => simp
  | cons p l ih =>
    have hp : p ∉ l := (List.nodup_cons.1 hnd).1
    rw [List.map_cons, List.sum_cons, ih (List.nodup_cons.1 hnd).2]
    by_cases hpa : p = a
    · subst hpa
      have hbp : ¬ b = p := fun h => hab h.symm
      simp [hp, hbp]
    · by_cases hpb : p = b
      · subst hpb
        have hap : ¬ a = p := fun h => hab h
        simp [hp, hap]
        omega
      · have hap : ¬ a = p := fun h => hpa h.symm
        have hbp : ¬ b = p := fun h => hpb h.symm
        simp [hf p hpa hpb, hap, hbp]

theorem count_mk_map_of_ne (p q : Pos) (hpq : p ≠ q) (rs : List Pos) :
    ((rs.map (fun r => (p, r))).map Sym2.mk).count (Sym2.mk (p, q)) = rs.count q := by
  induction rs with
  | nil => rfl
  | cons r rs ih =>
    rw [List.map_cons, List.map_cons, List.count_cons, ih, List.count_cons]
    congr 1
    have : (Sym2.mk (p, r) = Sym2.mk (p, q)) ↔ r = q := by
      rw [Sym2.mk_eq_mk_iff]
      constructor
      · rintro (h | h)
        · exact (Prod.mk.inj h).2
        · exact absurd (Prod.mk.inj h).1 hpq
      · rintro rfl; exact Or.inl rfl
    by_cases hrq : r = q
    · simp [hrq]
    · have hne : ¬ Sym2.mk (p, r) = Sym2.mk (p, q) := fun h => hrq (this.1 h)
      simp [hrq, hne]

theorem count_mk_map_of_ne_fst (p a b : Pos) (hpa : p ≠ a) (hpb : p ≠ b) (rs : List Pos) :
    ((rs.map (fun r => (p, r))).map Sym2.mk).count (Sym2.mk (a, b)) = 0 := by
  rw [List.count_eq_zero]
  intro h
  simp only [List.mem_map] at h
  obtain ⟨s, ⟨r, _, rfl⟩, hs⟩ := h
  rw [Sym2.mk_eq_mk_iff] at hs
  rcases hs with h | h
  · exact hpa (Prod.mk.inj h).1
  · exact hpb (Prod.mk.inj h).1

/-- The end vertices of the segments pushed for `p`. -/
theorem shapeLatticeSegments_eq_map (sel : List Pos) (p : Pos) :
    shapeLatticeSegments sel p =
      (([(p.1, p.2 - 1), (p.1 - 1, p.2)] ++
        (if (p.1, p.2 + 1) ∈ sel then [] else [(p.1, p.2 + 1)]) ++
        (if (p.1 + 1, p.2) ∈ sel then [] else [(p.1 + 1, p.2)]) : List Pos)).map
        (fun r => (p, r)) := by
  unfold shapeLatticeSegments
  by_cases hn : (p.1, p.2 + 1) ∈ sel <;> by_cases he : (p.1 + 1, p.2) ∈ sel <;>
    simp [hn, he]

theorem count_edge_in_block (sel : List Pos) (p q : Pos) (hpq : p ≠ q) :
    ((shapeLatticeSegments sel p).map Sym2.mk).count (Sym2.mk (p, q)) =
      (([(p.1, p.2 - 1), (p.1 - 1, p.2)] ++
        (if (p.1, p.2 + 1) ∈ sel then [] else [(p.1, p.2 + 1)]) ++
        (if (p.1 + 1, p.2) ∈ sel then [] else [(p.1 + 1, p.2)]) : List Pos)).count q := by
  rw [shapeLatticeSegments_eq_map]
  exact count_mk_map_of_ne p q hpq _

theorem count_edge_shapeLattice (sel : List Pos) (hnd : sel.Nodup) (a b : Pos)
    (hadj : Adjacent a b) :
    ((shapeLattice sel).map Sym2.mk).count (Sym2.mk (a, b)) =
      if a ∈ sel ∨ b ∈ sel then 1 else 0 := by
  have hab : a ≠ b := by
    rintro rfl
    rcases hadj with ⟨_, h | h⟩ | ⟨_, h | h⟩ <;> omega
  have hsum : ((shapeLattice sel).map Sym2.mk).count (Sym2.mk (a, b)) =
      (sel.map (fun p =>
        ((shapeLatticeSegments sel p).map Sym2.mk).count (Sym2.mk (a, b)))).sum := by
    unfold shapeLattice
    rw [List.map_flatten, List.count_flatten, List.map_map, List.map_map]
    rfl
  rw [hsum, sum_map_eq_of_support sel hnd _ a b hab (fun p hpa hpb => by
    rw [shapeLatticeSegments_eq_map]
    exact count_mk_map_of_ne_fst p a b hpa hpb _)]
  have hswap : Sym2.mk (a, b) = Sym2.mk (b, a) := Sym2.eq_swap
  have fa := count_edge_in_block sel a b hab
  have fb := count_edge_in_block sel b a (fun h => hab h.symm)
  rw [← hswap] at fb
  simp only [fa, fb]
  clear hsum fa fb hswap hnd hab
  by_cases ha : a ∈ sel <;> by_cases hb : b ∈ sel <;>
    simp only [ha, hb, or_self, or_true, true_or, if_true, if_false, Nat.add_zero, Nat.zero_add]
  all_goals
    obtain ⟨x, y⟩ := a
    obtain ⟨u, v⟩ := b
    simp only [Adjacent] at hadj
    rcases hadj with ⟨h1, h2 | h2⟩ | ⟨h1, h2 | h2⟩
    all_goals
      subst h1
      subst h2
      simp only [sub_add_cancel, add_sub_cancel_right, ha, hb, if_true, if_false]
      split_ifs <;> simp [List.count_cons] <;> (try split_ifs) <;> (try omega)

theorem mem_shapeLattice {sel : List Pos} {s : Pos × Pos} (h : s ∈ shapeLattice sel) :
    s.1 ∈ sel ∧ Adjacent s.1 s.2 ∧ Sym2.mk s ∈ incidentEdges s.1 := by
  unfold shapeLattice at h
  rw [List.mem_flatten] at h
  obtain ⟨l, hl, hs⟩ := h
  obtain ⟨p, hp, rfl⟩ := List.mem_map.1 hl
  rw [shapeLatticeSegments_eq_map, List.mem_map] at hs
  obtain ⟨r, hr, rfl⟩ := hs
  refine ⟨hp, ?_⟩
  simp only [List.mem_append, List.mem_cons, List.mem_singleton, List.not_mem_nil,
    or_false] at hr
  rcases hr with ((rfl | rfl) | hr) | hr
  · exact ⟨Or.inl ⟨rfl, Or.inr rfl⟩, by simp [incidentEdges]⟩
  · exact ⟨Or.inr ⟨rfl, Or.inr rfl⟩, by simp [incidentEdges]⟩
  · split at hr
    · simp at hr
    · rw [List.mem_singleton] at hr
      subst hr
      exact ⟨Or.inl ⟨rfl, Or.inl rfl⟩, by simp [incidentEdges]⟩
  · split at hr
    · simp at hr
    · rw [List.mem_singleton] at hr
      subst hr
      exact ⟨Or.inr ⟨rfl, Or.inl rfl⟩, by simp [incidentEdges]⟩

theorem nodup_shapeLattice_edges (sel : List Pos) (hnd : sel.Nodup) :
    ((shapeLattice sel).map Sym2.mk).Nodup := by
  rw [List.nodup_iff_count_le_one]
  intro e
  by_cases he : e ∈ (shapeLattice sel).map Sym2.mk
  · obtain ⟨s, hs, rfl⟩ := List.mem_map.1 he
    obtain ⟨_, hadj, _⟩ := mem_shapeLattice hs
    have := count_edge_shapeLattice sel hnd s.1 s.2 hadj
    rw [show Sym2.mk s = Sym2.mk (s.1, s.2) from rfl, this]
    split <;> omega
  · rw [List.count_eq_zero.2 he]
    omega

theorem toFinset_shapeLattice_edges (sel : List Pos) (hnd : sel.Nodup) :
    ((shapeLattice sel).map Sym2.mk).toFinset = touchedEdges sel := by
  ext e
  unfold touchedEdges
  rw [List.mem_toFinset, List.mem_toFinset, List.mem_flatMap]
  constructor
  · intro he
    obtain ⟨s, hs, rfl⟩ := List.mem_map.1 he
    obtain ⟨hsel, _, hinc⟩ := mem_shapeLattice hs
    exact ⟨s.1, hsel, hinc⟩
  · rintro ⟨p, hp, he⟩
    have key : ∀ q, Adjacent p q → Sym2.mk (p, q) ∈ (shapeLattice sel).map Sym2.mk := by
      intro q hq
      rw [← List.count_pos_iff, count_edge_shapeLattice sel hnd p q hq, if_pos (Or.inl hp)]
      exact Nat.one_pos
    simp only [incidentEdges, List.mem_cons, List.mem_singleton, List.not_mem_nil,
      or_false] at he
    rcases he with rfl | rfl | rfl | rfl
    · exact key _ (Or.inl ⟨rfl, Or.inr rfl⟩)
    · exact key _ (Or.inr ⟨rfl, Or.inr rfl⟩)
    · exact key _ (Or.inl ⟨rfl, Or.inl rfl⟩)
    · exact key _ (Or.inr ⟨rfl, Or.inl rfl⟩)

theorem length_shapeLattice (sel : List Pos) (hnd : sel.Nodup) :
    (shapeLattice sel).length = (touchedEdges sel).card := by
  rw [← toFinset_shapeLattice_edges sel hnd,
    List.toFinset_card_of_nodup (nodup_shapeLattice_edges sel hnd), List.length_map]

/-- C20: for a duplicate-free committed list the segments of the VertexShape
buffer are the world images of the lattice segments `shapeLattice`; for every
pair of 4-neighbouring vertices `a`, `b` the number of these segments that join
`a` and `b`, in either direction, is 1 when `a` or `b` is committed and 0
otherwise; and the number of segments is the number of lattice edges with a
committed endpoint. -/
theorem every_touched_edge_drawn_once (w : World) (committed : List Pos)
    (hnd : committed.Nodup) :
    segmentsOf (drawShapeSelection w committed []) =
      (shapeLattice committed).map (fun s => (vertexEndpoint w s.1, vertexEndpoint w s.2)) ∧
    (∀ a b : Pos, Adjacent a b →
      ((shapeLattice committed).map Sym2.mk).count (Sym2.mk (a, b)) =
        if a ∈ committed ∨ b ∈ committed then 1 else 0) ∧
    (segmentsOf (drawShapeSelection w committed [])).length = (touchedEdges committed).card := by
  have hseg : segmentsOf (drawShapeSelection w committed []) =
      (shapeLattice committed).map
        (fun s => (vertexEndpoint w s.1, vertexEndpoint w s.2)) := by
    rw [drawShapeSelection_eq, List.nil_append, segmentsOf_vertexShapeBuffer]
  refine ⟨hseg, fun a b hadj => count_edge_shapeLattice committed hnd a b hadj, ?_⟩
  rw [hseg, List.length_map, length_shapeLattice committed hnd]

theorem every_touched_edge_drawn_once_witness :
    (segmentsOf (drawShapeSelection emptyWorld [(0, 0), (1, 0)] [])).length = 7 ∧
    (touchedEdges [(0, 0), (1, 0)]).card = 7 ∧
    (segmentsOf (drawShapeSelection emptyWorld [(0, 0)] [])).length = 4 ∧
    ((shapeLattice [(0, 0), (1, 0)]).map Sym2.mk).count (Sym2.mk ((0, 0), (1, 0))) = 1 ∧
    ((shapeLattice [(0, 0), (1, 0)]).map Sym2.mk).count (Sym2.mk ((1, 0), (2, 0))) = 1 ∧
    ((shapeLattice [(0, 0), (1, 0)]).map Sym2.mk).count (Sym2.mk ((2, 0), (3, 0))) = 0 := by
  have h2 := every_touched_edge_drawn_once emptyWorld [(0, 0), (1, 0)] (by decide)
  have h1 := every_touched_edge_drawn_once emptyWorld [(0, 0)] (by decide)
  have c7 : (touchedEdges [(0, 0), (1, 0)]).card = 7 := by decide
  have c4 : (touchedEdges [(0, 0)]).card = 4 := by decide
  refine ⟨by rw [h2.2.2, c7], c7, by rw [h1.2.2, c4], ?_, ?_, ?_⟩
  · rw [h2.2.1 (0, 0) (1, 0) (Or.inr ⟨rfl, Or.inl rfl⟩)]; decide
  · rw [h2.2.1 (1, 0) (2, 0) (Or.inr ⟨rfl, Or.inl rfl⟩)]; decide
  · rw [h2.2.1 (2, 0) (3, 0) (Or.inr ⟨rfl, Or.inl rfl⟩)]; decide

/-! ## Scenario 3 of the specification, evaluated

`LAND_SIZE = 65`, `LAND_TEXTURE_SIZE = 16`, `REAL_SIZE = 8192`, no cell loaded,
`committed = [(0,0)]`: 32 endpoints, the first one at `(128, 384, 2)`. -/

/-- In `emptyWorld` the nudge is `512 * 0.25 = 128` world units. -/
theorem nudgeOffset_emptyWorld : nudgeOffset emptyWorld.land = 128 := by
  have h512 : toFloat (512 : ℚ) = 512 := by
    simpa using toFloat_intCast 512 (by decide)
  have h128 : toFloat (128 : ℚ) = 128 := by
    simpa using toFloat_intCast 128 (by decide)
  have hdiv : Int.tdiv emptyWorld.land.REAL_SIZE emptyWorld.land.LAND_TEXTURE_SIZE = 512 := by
    decide
  unfold nudgeOffset floatOfInt nudgePercentage
  rw [hdiv]
  norm_num [h512, h128]
  exact_mod_cast truncToInt_intCast 128

theorem single_patch_four_k_segments_witness :
    (drawTextureSelection emptyWorld [(0, 0)] []).length = 32 ∧
    (drawTextureSelection emptyWorld [(0, 0)] []).head? = some ⟨128, 384, 2⟩ := by
  have h := single_patch_four_k_segments emptyWorld 0 0 (by decide)
    (by simp [emptyWorld, toFloat_zero])
  have hk : textureSizeToLandSizeModifier emptyWorld.land = 4 := by decide
  have h128 : toFloat (128 : ℚ) = 128 := by
    simpa using toFloat_intCast 128 (by decide)
  have h384 : toFloat (384 : ℚ) = 384 := by
    simpa using toFloat_intCast 384 (by decide)
  have h2 : toFloat (2 : ℚ) = 2 := by
    simpa using toFloat_intCast 2 (by decide)
  constructor
  · have := h.1
    rw [hk] at this
    exact_mod_cast this
  · have hh := h.2
    rw [hk, nudgeOffset_emptyWorld,
      calculateLandHeight_of_getCell_none emptyWorld _ _ rfl] at hh
    rw [hh, if_neg (by decide)]
    have e1 : floatAdd (emptyWorld.textureGlobalToWorldCoords 0) (floatOfInt 128) = 128 := by
      show toFloat (512 * ((0 : Int) : ℚ) + toFloat ((128 : Int) : ℚ)) = 128
      norm_num [h128]
    have e2 : floatSub (emptyWorld.textureGlobalToWorldCoords (0 + 1)) (floatOfInt 128) = 384 := by
      show toFloat (512 * (((0 + 1 : Int)) : ℚ) - toFloat ((128 : Int) : ℚ)) = 384
      norm_num [h128, h384]
    have e3 : floatOfInt (0 + 2) = 2 := by
      show toFloat (((0 + 2 : Int)) : ℚ) = 2
      norm_num [h2]
    rw [e1, e2, e3]

/-! ## TextureCell mode against the reference with explicit constants -/

theorem loopIndices_eq (land : Land) :
    loopIndices land =
      (List.range (textureSizeToLandSizeModifier land).toNat).map
        (fun i : Nat => (i : Int) + 1) := by
  unfold loopIndices
  rw [List.range'_eq_map_range, List.map_map]
  apply List.map_congr_left
  intro i _
  simp only [Function.comp]
  push_cast
  ring

theorem textureCellBuffer_eq_reference (w : World) (sel : List Pos) :
    textureCellBuffer w sel =
      referenceTextureBuffer w (textureSizeToLandSizeModifier w.land) (vertexSpacing w.land)
        (nudgeOffset w.land) (landHeightsNudge w.land) sel := by
  have hside : ∀ endpoint : Int → Vec3f,
      textureSide w endpoint =
        referenceSide (textureSizeToLandSizeModifier w.land) endpoint := by
    intro endpoint
    unfold textureSide referenceSide
    rw [loopIndices_eq]
  unfold textureCellBuffer referenceTextureBuffer
  congr 1
  apply List.map_congr_left
  intro p _
  unfold texturePatchSegments referencePatch
  simp only [hside]
  rfl

theorem nudgeOffset_eq_floor (land : Land) (hR : 0 < land.REAL_SIZE)
    (hT : 0 < land.LAND_TEXTURE_SIZE)
    (hsmall : land.REAL_SIZE / land.LAND_TEXTURE_SIZE < 2 ^ 24) :
    nudgeOffset land = ⌊(land.REAL_SIZE : ℚ) / (land.LAND_TEXTURE_SIZE : ℚ) * (1 / 4)⌋ := by
  have hm0 : 0 ≤ land.REAL_SIZE / land.LAND_TEXTURE_SIZE :=
    Int.ediv_nonneg (le_of_lt hR) (le_of_lt hT)
  have hm : |land.REAL_SIZE / land.LAND_TEXTURE_SIZE| < 2 ^ 24 := by
    rw [abs_of_nonneg hm0]; exact hsmall
  have hquarter : toFloat (((land.REAL_SIZE / land.LAND_TEXTURE_SIZE : Int) : ℚ) * (1 / 4)) =
      ((land.REAL_SIZE / land.LAND_TEXTURE_SIZE : Int) : ℚ) * (1 / 4) := by
    have h := toFloat_of_representable (land.REAL_SIZE / land.LAND_TEXTURE_SIZE) (-2) hm
    have h4 : (2 : ℚ) ^ (-2 : Int) = 1 / 4 := by norm_num
    rw [h4] at h
    exact h
  have hnonneg : (0 : ℚ) ≤ ((land.REAL_SIZE / land.LAND_TEXTURE_SIZE : Int) : ℚ) * (1 / 4) := by
    have : (0 : ℚ) ≤ ((land.REAL_SIZE / land.LAND_TEXTURE_SIZE : Int) : ℚ) := by
      exact_mod_cast hm0
    positivity
  unfold nudgeOffset floatOfInt nudgePercentage
  rw [Int.tdiv_eq_ediv (le_of_lt hR) (le_of_lt hT), toFloat_intCast _ hm, hquarter]
  unfold truncToInt
  rw [if_pos hnonneg]
  have e1 : ((land.REAL_SIZE / land.LAND_TEXTURE_SIZE : Int) : ℚ) * (1 / 4) =
      ((land.REAL_SIZE / land.LAND_TEXTURE_SIZE : Int) : ℚ) / ((4 : Int) : ℚ) := by
    push_cast; ring
  have e2 : (land.REAL_SIZE : ℚ) / (land.LAND_TEXTURE_SIZE : ℚ) * (1 / 4) =
      (land.REAL_SIZE : ℚ) / ((land.LAND_TEXTURE_SIZE * 4 : Int) : ℚ) := by
    have hTq : (land.LAND_TEXTURE_SIZE : ℚ) ≠ 0 := by
      exact_mod_cast (ne_of_gt hT)
    push_cast
    field_simp
  rw [e1, e2, floor_intCast_div_pos _ _ (by decide), floor_intCast_div_pos _ _ (by omega)]
  obtain ⟨r, hr⟩ := Int.eq_ofNat_of_zero_le (le_of_lt hR)
  obtain ⟨t, ht⟩ := Int.eq_ofNat_of_zero_le (le_of_lt hT)
  rw [hr, ht]
  exact_mod_cast Nat.div_div_eq_div_mul r t 4

/-- C11: for positive land constants and every committed list, the buffer that
`drawTextureSelection` fills (starting from the fresh array of `update()`) is
the reference buffer with `k = (LAND_SIZE-1)/LAND_TEXTURE_SIZE`,
`D = REAL_SIZE/(LAND_SIZE-1)` and `n` the program's `landHeightsNudge`: per
committed patch in list order the sides north, south, east, west, a side being
present, as `k` sub-segments, exactly when the neighbour patch on that side is
not committed.  The nudge is the program's `nudgeOffset`, which is
`floor(REAL_SIZE / LAND_TEXTURE_SIZE × 0.25)` whenever the quotient converts to
`float` exactly. -/
theorem drawTextureSelection_eq_reference (w : World) (committed : List Pos)
    (hR : 0 < w.land.REAL_SIZE) (hL : 0 < w.land.LAND_SIZE)
    (hT : 0 < w.land.LAND_TEXTURE_SIZE) :
    drawTextureSelection w committed [] =
      referenceTextureBuffer w ((w.land.LAND_SIZE - 1) / w.land.LAND_TEXTURE_SIZE)
        (w.land.REAL_SIZE / (w.land.LAND_SIZE - 1)) (nudgeOffset w.land)
        (landHeightsNudge w.land) committed ∧
    (w.land.REAL_SIZE / w.land.LAND_TEXTURE_SIZE < 2 ^ 24 →
      nudgeOffset w.land =
        ⌊(w.land.REAL_SIZE : ℚ) / (w.land.LAND_TEXTURE_SIZE : ℚ) * (1 / 4)⌋) := by
  refine ⟨?_, nudgeOffset_eq_floor w.land hR hT⟩
  have hk : textureSizeToLandSizeModifier w.land =
      (w.land.LAND_SIZE - 1) / w.land.LAND_TEXTURE_SIZE := by
    unfold textureSizeToLandSizeModifier
    exact Int.tdiv_eq_ediv (by omega) (le_of_lt hT)
  have hD : vertexSpacing w.land = w.land.REAL_SIZE / (w.land.LAND_SIZE - 1) := by
    unfold vertexSpacing
    exact Int.tdiv_eq_ediv (le_of_lt hR) (by omega)
  rw [drawTextureSelection_eq, List.nil_append, textureCellBuffer_eq_reference, hk, hD]

theorem drawTextureSelection_eq_reference_witness :
    drawTextureSelection emptyWorld [(0, 0), (1, 0)] [] =
      referenceTextureBuffer emptyWorld 4 128 128 1 [(0, 0), (1, 0)] ∧
    nudgeOffset emptyWorld.land = 128 ∧
    (drawTextureSelection emptyWorld [(0, 0), (1, 0)] []).length = 48 := by
  have h := drawTextureSelection_eq_reference emptyWorld [(0, 0), (1, 0)]
    (by decide) (by decide) (by decide)
  have hn : nudgeOffset emptyWorld.land = 128 := by
    rw [h.2 (by decide)]
    show ⌊((8192 : Int) : ℚ) / ((16 : Int) : ℚ) * (1 / 4)⌋ = 128
    norm_num
  have hk : (emptyWorld.land.LAND_SIZE - 1) / emptyWorld.land.LAND_TEXTURE_SIZE = 4 := by
    decide
  have hD : emptyWorld.land.REAL_SIZE / (emptyWorld.land.LAND_SIZE - 1) = 128 := by decide
  have hl : landHeightsNudge emptyWorld.land = 1 := by decide
  have hbuf := h.1
  rw [hk, hD, hn, hl] at hbuf
  refine ⟨hbuf, hn, ?_⟩
  decide
